import Mathlib

/-!
Verification of the generation-plan execution engine and its in-memory
document store (shallow embedding of `src/database/db.py`,
`src/common/plan_orchestrator.py`, `src/common/plan_service.py` and the
plan branch of `src/common/routes.py`).

Modelling conventions:
* Python dicts are association lists `List (String × α)` with dict-style
  `get`/`set` (replace-in-place keeps the original position, otherwise
  append at the end) — this reproduces insertion-order iteration, which
  matters for the "first match" semantics of the store.
* Document field values are modelled as `String` (the store only ever
  compares them for equality and copies them).
* The external generation backend, wall-clock timing and cost tables are
  modelled as an explicit oracle (`Backend`); an exception thrown by the
  backend is an `Except.error` carrying the exception message.
* Fresh UUIDs are supplied as explicit parameters.
-/

namespace GenAI

/-! ### Python dict primitives -/

/-- `d.get(k)`: value of the first (and in a real dict, only) binding of `k`. -/
def dictGet {α : Type} (l : List (String × α)) (k : String) : Option α :=
  (l.find? (fun p => p.1 == k)).map (·.2)

/-- `d[k] = v`: replace the binding in place if the key exists, else append. -/
def dictSet {α : Type} (l : List (String × α)) (k : String) (v : α) : List (String × α) :=
  if l.any (fun p => p.1 == k) then l.map (fun p => if p.1 == k then (k, v) else p)
  else l ++ [(k, v)]

/-! ### Document store (`src/database/db.py`, class `InMemoryMongo`) -/

/-- A document: a Python dict of field name to value. -/
abbrev Doc := List (String × String)

/-- A collection: a Python dict of document id to document, in insertion order. -/
abbrev Coll := List (String × Doc)

/-- The store: a Python dict of collection name to collection. -/
abbrev Store := List (String × Coll)

/-- `doc.update(patch)`: merge `patch` into `d`, later keys overwriting. -/
def dUpdate (d : Doc) (patch : Doc) : Doc :=
  patch.foldl (fun acc kv => dictSet acc kv.1 kv.2) d

/-- The owner-scoping guard: `owner_id is None or doc.get("owner_id") == owner_id`. -/
def ownerOk (owner : Option String) (d : Doc) : Bool :=
  match owner with
  | none => true
  | some a => dictGet d "owner_id" == some a

/-- The equality-filter match loop: every `(k, v)` of the filter must satisfy
`doc.get(k) == v`. -/
def docMatches (filter : Doc) (d : Doc) : Bool :=
  filter.all (fun kv => dictGet d kv.1 == some kv.2)

/-- A document passes a scoped query when it passes both the owner guard and
the filter. -/
def scopedMatch (owner : Option String) (filter : Doc) (d : Doc) : Bool :=
  ownerOk owner d && docMatches filter d

/-- The collection stored under name `c` (empty when absent — `_ensure_collection`
only ever installs an empty collection, which is invisible to queries). -/
def getColl (s : Store) (c : String) : Coll :=
  (dictGet s c).getD []

/-- `self._collections[collection] = coll` (dict assignment). -/
def setColl (s : Store) (c : String) (coll : Coll) : Store :=
  dictSet s c coll

/-- `_ensure_collection`: create the collection as empty if missing. -/
def ensureColl (s : Store) (c : String) : Store :=
  if s.any (fun p => p.1 == c) then s else s ++ [(c, [])]

/-- `doc = dict(document); if "id" not in doc: doc["id"] = str(uuid4())` —
returns the (copied) document together with its id; `freshId` stands for the
generated UUID. -/
def ensureId (document : Doc) (freshId : String) : Doc × String :=
  match dictGet document "id" with
  | some i => (document, i)
  | none => (dictSet document "id" freshId, freshId)

/-- `insert_one`: store the document under its id (dict assignment: an existing
id is silently overwritten in place), returning the stored document. -/
def insert_one (s : Store) (c : String) (freshId : String) (document : Doc) :
    Doc × Store :=
  let s1 := ensureColl s c
  let di := ensureId document freshId
  (di.1, setColl s1 c (dictSet (getColl s1 c) di.2 di.1))

/-- The iteration of `find` over a collection in insertion order: skip documents
failing the owner guard; an empty filter matches everything; otherwise keep the
documents matching every filter key. -/
def findDocs (coll : Coll) (filter : Doc) (owner : Option String) : List Doc :=
  match coll with
  | [] => []
  | (_, d) :: rest =>
    if ownerOk owner d then
      if filter.isEmpty then d :: findDocs rest filter owner
      else if docMatches filter d then d :: findDocs rest filter owner
      else findDocs rest filter owner
    else findDocs rest filter owner

/-- `find(collection, filter, owner_id)` (the `_ensure_collection` side effect
only creates an empty collection and is invisible to the returned list). -/
def find (s : Store) (c : String) (filter : Doc) (owner : Option String) : List Doc :=
  findDocs (getColl s c) filter owner

/-- `find_one`: first match or `None`. -/
def find_one (s : Store) (c : String) (filter : Doc) (owner : Option String) : Option Doc :=
  (find s c filter owner).head?

/-- The iteration of `update_one`: find the first document passing the owner
guard and the filter, merge the patch into it in place, and return the merged
document together with the updated collection. -/
def updateColl (coll : Coll) (filter : Doc) (patch : Doc) (owner : Option String) :
    Option (Doc × Coll) :=
  match coll with
  | [] => none
  | (i, d) :: rest =>
    if scopedMatch owner filter d then some (dUpdate d patch, (i, dUpdate d patch) :: rest)
    else (updateColl rest filter patch owner).map (fun r => (r.1, (i, d) :: r.2))

/-- `update_one`: merge `patch` into the first match and return it; raise
`KeyError("document not found")` when nothing matches.  The post-state is
returned in both cases (on the error path only `_ensure_collection` ran). -/
def update_one (s : Store) (c : String) (filter : Doc) (patch : Doc)
    (owner : Option String) : Except String Doc × Store :=
  let s1 := ensureColl s c
  match updateColl (getColl s1 c) filter patch owner with
  | some r => (Except.ok r.1, setColl s1 c r.2)
  | none => (Except.error "document not found", s1)

/-- The iteration of `delete_one`: pop the first document passing the owner
guard and the filter. -/
def deleteColl (coll : Coll) (filter : Doc) (owner : Option String) :
    Option (Doc × Coll) :=
  match coll with
  | [] => none
  | (i, d) :: rest =>
    if scopedMatch owner filter d then some (d, rest)
    else (deleteColl rest filter owner).map (fun r => (r.1, (i, d) :: r.2))

/-- `delete_one`: remove and return the first match; raise
`KeyError("document not found")` when nothing matches. -/
def delete_one (s : Store) (c : String) (filter : Doc) (owner : Option String) :
    Except String Doc × Store :=
  let s1 := ensureColl s c
  match deleteColl (getColl s1 c) filter owner with
  | some r => (Except.ok r.1, setColl s1 c r.2)
  | none => (Except.error "document not found", s1)

/-- `dump_to_files`: one file per collection, holding the collection's
documents (dict values) in iteration order. -/
def dump_to_files (s : Store) : List (String × List Doc) :=
  s.map (fun p => (p.1, p.2.map (·.2)))

/-- Loading one document from a persisted file: when it carries an `id` that is
already present in memory (Python tests `if existing:`, so an empty stored doc
does not count) skip it, otherwise `insert_one` a copy. -/
def loadDoc (s : Store) (c : String) (fresh : String) (d : Doc) : Store :=
  match dictGet d "id" with
  | some i =>
    let s1 := ensureColl s c
    match (getColl s1 c).find? (fun p => p.1 == i) with
    | some p => if p.2.isEmpty then (insert_one s1 c fresh d).2 else s1
    | none => (insert_one s1 c fresh d).2
  | none => (insert_one s c fresh d).2

/-- Loading the document list of one file, threading the UUID supply. -/
def loadDocs (c : String) (freshSupply : Nat → String) :
    Store × Nat → List Doc → Store × Nat :=
  fun sn docs =>
    docs.foldl (fun acc d => (loadDoc acc.1 c (freshSupply acc.2) d, acc.2 + 1)) sn

/-- `load_from_files`: read every persisted file (in directory-listing order)
and load its documents with id-based de-duplication. -/
def load_from_files (s : Store) (files : List (String × List Doc))
    (freshSupply : Nat → String) : Store :=
  (files.foldl (fun acc f => loadDocs f.1 freshSupply acc f.2) (s, 0)).1

/-! ### Plan data model (`src/common/models.py`) -/

/-- `VideoMode` (video generation sub-modes). -/
inductive VideoMode
  | text_to_video
  | frames_to_video
  | references_to_video
  | extend_video
deriving DecidableEq, Repr

/-- A pre-generated image asset, identified by its stored reference. -/
abbrev ImageAsset := String

/-- `SceneDefinition` (the fields the scheduler reads; `aspect` stands for the
source field `aspect_ratio`). -/
structure SceneDefinition where
  id : String
  prompt : String
  mode : VideoMode
  pre_generate_images : Bool
  image_prompts : List String
  dependencies : List String
  aspect : Option String
  resolution : Option String
  model : Option String
deriving DecidableEq, Repr

/-- `OrchestrationStrategy`. -/
structure OrchestrationStrategy where
  parallel_groups : List (List String)
  sequential_chains : List (List String)
deriving DecidableEq, Repr

/-- `VideoGenerationPlan` (the fields the scheduler reads). -/
structure VideoGenerationPlan where
  scenes : List SceneDefinition
  orchestration : OrchestrationStrategy
deriving DecidableEq, Repr

/-- `SceneResult` (duration is the oracle-measured wall-clock value; cost is an
abstract amount). -/
structure SceneResult where
  scene_id : String
  success : Bool
  video_url : Option String
  video_uri : Option String
  generated_images : Option (List ImageAsset)
  error : Option String
  duration_seconds : Nat
  cost : Option Nat
deriving DecidableEq, Repr

/-! ### The backend oracle

`generate_video` may block and then either return a result or raise (modelled
as `Except.error` carrying the exception message).  `gen_image` models one
`call_gemini_generate_stream_and_save` call.  `sched` models the
completion-order nondeterminism of `as_completed` over the thread pool (the
theorems about parallel execution assume only that it permutes its input).
`elapsed` is the oracle-measured `time.time()` difference and `cost_from_usage`
/ `video_cost` stand for the cost-service arithmetic. -/

/-- The successful payload of `generate_video`. -/
structure GenOk where
  video_url : Option String
  video_uri : Option String
  usage_metadata : Option Nat
deriving DecidableEq, Repr

/-- The parameter dict built for `generate_video` (`input_video` holds the
continuation URI in extend mode). -/
structure VideoRequest where
  prompt : String
  model : String
  aspect : String
  resolution : String
  mode : VideoMode
  owner_id : Option String
  avatar_id : Option String
  input_video : Option String
deriving DecidableEq, Repr

/-- One call to the external generation backend. -/
inductive BackendCall
  | video (req : VideoRequest)
  | image (prompt : String)
deriving DecidableEq, Repr

/-- The external environment of the orchestrator. -/
structure Backend where
  generate_video : VideoRequest → Except String GenOk
  gen_image : String → Except String (List ImageAsset)
  cost_from_usage : Nat → String → Nat
  video_cost : Nat
  elapsed : Nat
  sched : List SceneResult → List SceneResult

/-! ### Scene executor (`src/common/plan_orchestrator.py`) -/

/-- `generate_images_for_scene`: pre-generate the reference images of one
scene, sequentially, continuing past per-image failures.  Also returns the
backend calls made. -/
def generate_images_for_scene (bk : Backend) (scene : SceneDefinition) :
    List ImageAsset × List BackendCall :=
  if !scene.pre_generate_images || scene.image_prompts.isEmpty then ([], [])
  else
    scene.image_prompts.foldl
      (fun acc p =>
        match bk.gen_image p with
        | Except.ok assets => (acc.1 ++ assets, acc.2 ++ [BackendCall.image p])
        | Except.error _ => (acc.1, acc.2 ++ [BackendCall.image p]))
      ([], [])

/-- The `video_params` dict built by `execute_single_scene` after resolving the
per-scene overrides against the defaults. -/
def buildVideoRequest (scene : SceneDefinition) (owner_id : Option String)
    (previous_video_uri : Option String) (default_aspect : String)
    (default_resolution : String) (default_model : String)
    (avatar_id : Option String) : VideoRequest :=
  { prompt := scene.prompt
    model := scene.model.getD default_model
    aspect := scene.aspect.getD default_aspect
    resolution := scene.resolution.getD default_resolution
    mode := scene.mode
    owner_id := owner_id
    avatar_id := avatar_id
    input_video :=
      if scene.mode = VideoMode.extend_video then previous_video_uri else none }

/-- The `ValueError` message raised for a continuation scene without a token. -/
def extendErrMsg (sceneId : String) : String :=
  "Scene " ++ sceneId ++ " requires extend_video but no previous video URI provided"

/-- `execute_single_scene`: run exactly one scene; every exception (the
precondition `ValueError` and any backend failure) is captured into a failed
`SceneResult`.  Also returns the backend calls made. -/
def execute_single_scene (bk : Backend) (scene : SceneDefinition)
    (owner_id : Option String) (previous_video_uri : Option String)
    (pre_generated_images : Option (List ImageAsset)) (default_aspect : String)
    (default_resolution : String) (default_model : String)
    (avatar_id : Option String) : SceneResult × List BackendCall :=
  if scene.mode = VideoMode.extend_video ∧ previous_video_uri = none then
    ({ scene_id := scene.id
       success := false
       video_url := none
       video_uri := none
       generated_images := pre_generated_images
       error := some (extendErrMsg scene.id)
       duration_seconds := bk.elapsed
       cost := none }, [])
  else
    let req := buildVideoRequest scene owner_id previous_video_uri default_aspect
      default_resolution default_model avatar_id
    match bk.generate_video req with
    | Except.ok r =>
      let cost :=
        match r.usage_metadata with
        | some u => bk.cost_from_usage u req.model
        | none => bk.video_cost
      ({ scene_id := scene.id
         success := true
         video_url := r.video_url
         video_uri := r.video_uri
         generated_images := pre_generated_images
         error := none
         duration_seconds := bk.elapsed
         cost := some cost }, [BackendCall.video req])
    | Except.error e =>
      ({ scene_id := scene.id
         success := false
         video_url := none
         video_uri := none
         generated_images := pre_generated_images
         error := some e
         duration_seconds := bk.elapsed
         cost := none }, [BackendCall.video req])

/-- `scene_images.get(scene.id, [])`. -/
def imagesFor (scene_images : List (String × List ImageAsset)) (sid : String) :
    List ImageAsset :=
  (dictGet scene_images sid).getD []

/-- `execute_parallel_scenes`: every scene of the group runs with no
continuation URI; results are collected in completion order, modelled by the
oracle scheduler `bk.sched`. -/
def execute_parallel_scenes (bk : Backend) (scenes : List SceneDefinition)
    (owner_id : Option String) (scene_images : List (String × List ImageAsset))
    (default_aspect : String) (default_resolution : String)
    (default_model : String) (avatar_id : Option String) :
    List SceneResult × List BackendCall :=
  let runs := scenes.map (fun sc =>
    execute_single_scene bk sc owner_id none (some (imagesFor scene_images sc.id))
      default_aspect default_resolution default_model avatar_id)
  (bk.sched (runs.map (·.1)), (runs.map (·.2)).flatten)

/-- The loop of `execute_sequential_scenes`: thread the last known-good video
URI; a failed scene (or one without a URI) leaves it unchanged, and execution
always continues to the next scene. -/
def seqLoop (bk : Backend) (owner_id : Option String)
    (scene_images : List (String × List ImageAsset)) (default_aspect : String)
    (default_resolution : String) (default_model : String)
    (avatar_id : Option String) :
    List SceneDefinition → Option String → List SceneResult × List BackendCall
  | [], _ => ([], [])
  | sc :: rest, prev =>
    let rc := execute_single_scene bk sc owner_id prev
      (some (imagesFor scene_images sc.id)) default_aspect default_resolution
      default_model avatar_id
    let prev1 :=
      if rc.1.success then
        match rc.1.video_uri with
        | some u => some u
        | none => prev
      else prev
    let rest1 := seqLoop bk owner_id scene_images default_aspect
      default_resolution default_model avatar_id rest prev1
    (rc.1 :: rest1.1, rc.2 ++ rest1.2)

/-- `execute_sequential_scenes`: the continuation URI starts out empty. -/
def execute_sequential_scenes (bk : Backend) (scenes : List SceneDefinition)
    (owner_id : Option String) (scene_images : List (String × List ImageAsset))
    (default_aspect : String) (default_resolution : String)
    (default_model : String) (avatar_id : Option String) :
    List SceneResult × List BackendCall :=
  seqLoop bk owner_id scene_images default_aspect default_resolution
    default_model avatar_id scenes none

/-! ### Plan orchestrator (`execute_plan`) -/

/-- Step 1 of `execute_plan`: the `scene_images` dict, populated (in scene
order) for every scene requesting pre-generation, together with the image
backend calls made. -/
def preGenerateImages (bk : Backend) (scenes : List SceneDefinition) :
    List (String × List ImageAsset) × List BackendCall :=
  scenes.foldl
    (fun acc sc =>
      if sc.pre_generate_images then
        let gi := generate_images_for_scene bk sc
        (dictSet acc.1 sc.id gi.1, acc.2 ++ gi.2)
      else acc)
    ([], [])

/-- Step 2 of `execute_plan`: the `scene_lookup` dict comprehension (for a
duplicated id the last scene wins, as in a Python dict). -/
def sceneLookup (scenes : List SceneDefinition) (sid : String) :
    Option SceneDefinition :=
  scenes.foldl (fun acc sc => if sc.id == sid then some sc else acc) none

/-- The `scene_order` dict of `execute_plan`, read with default `999`. -/
def sceneOrderKey (scenes : List SceneDefinition) (sid : String) : Nat :=
  (scenes.enum.foldl (fun acc p => if p.2.id == sid then some p.1 else acc)
    none).getD 999

/-- Steps 3 and 4 of `execute_plan`: run a list of groups (resp. chains) through
a runner, skipping entries that resolve to no valid scene, and concatenate
results and backend calls. -/
def runGroups
    (runner : List SceneDefinition → List SceneResult × List BackendCall)
    (lookup : String → Option SceneDefinition) (groups : List (List String)) :
    List SceneResult × List BackendCall :=
  groups.foldl
    (fun acc group =>
      let group_scenes := group.filterMap lookup
      if group_scenes.isEmpty then acc
      else
        let r := runner group_scenes
        (acc.1 ++ r.1, acc.2 ++ r.2))
    ([], [])

/-- `execute_plan`: pre-generate images, run the parallel groups, run the
sequential chains, sweep unorchestrated scenes into a sequential fallback, and
sort all collected results into the plan's scene order.  Also returns every
backend call made. -/
def execute_plan (bk : Backend) (plan : VideoGenerationPlan)
    (owner_id : Option String) (default_aspect : String)
    (default_resolution : String) (default_model : String)
    (avatar_id : Option String) : List SceneResult × List BackendCall :=
  let pre := preGenerateImages bk plan.scenes
  let scene_images := pre.1
  let lookup := sceneLookup plan.scenes
  let parallel := runGroups
    (fun scs => execute_parallel_scenes bk scs owner_id scene_images
      default_aspect default_resolution default_model avatar_id)
    lookup plan.orchestration.parallel_groups
  let sequential := runGroups
    (fun scs => execute_sequential_scenes bk scs owner_id scene_images
      default_aspect default_resolution default_model avatar_id)
    lookup plan.orchestration.sequential_chains
  let orchestrated :=
    plan.orchestration.parallel_groups.flatten ++
      plan.orchestration.sequential_chains.flatten
  let unorchestrated :=
    plan.scenes.filter (fun sc => !(orchestrated.contains sc.id))
  let fallback :=
    if unorchestrated.isEmpty then ([], [])
    else execute_sequential_scenes bk unorchestrated owner_id scene_images
      default_aspect default_resolution default_model avatar_id
  let all_results := parallel.1 ++ sequential.1 ++ fallback.1
  let sorted := all_results.mergeSort
    (fun a b => sceneOrderKey plan.scenes a.scene_id ≤
      sceneOrderKey plan.scenes b.scene_id)
  (sorted, pre.2 ++ parallel.2 ++ sequential.2 ++ fallback.2)

/-! ### Plan validator (`src/common/plan_service.py`, `validate_plan`) -/

/-- The distinct `ValueError`s raised by `validate_plan`. -/
inductive PlanError
  | noScenes
  | duplicateIds
  | missingDependency (sceneId depId : String)
  | extendWithoutDeps (sceneId : String)
  | orchestrationUnknownScene (sceneId : String)
deriving DecidableEq, Repr

/-- The first dependency (in scene order, then dependency order) that
references no existing scene id. -/
def firstBadDep (ids : List String) : List SceneDefinition → Option (String × String)
  | [] => none
  | sc :: rest =>
    match sc.dependencies.find? (fun d => !(ids.contains d)) with
    | some d => some (sc.id, d)
    | none => firstBadDep ids rest

/-- The first scene (in scene order) using extend mode with no dependencies. -/
def firstExtendNoDeps : List SceneDefinition → Option String
  | [] => none
  | sc :: rest =>
    if sc.mode = VideoMode.extend_video && sc.dependencies.isEmpty then some sc.id
    else firstExtendNoDeps rest

/-- The first orchestration entry (group by group, then entry by entry) that
references no existing scene id. -/
def firstBadRef (ids : List String) : List (List String) → Option String
  | [] => none
  | g :: rest =>
    match g.find? (fun sid => !(ids.contains sid)) with
    | some sid => some sid
    | none => firstBadRef ids rest

/-- `validate_plan`: the fail-fast structural checks, in source order, first
violation winning (`len(set(ids))` is the number of distinct ids). -/
def validate_plan (plan : VideoGenerationPlan) : Except PlanError Unit :=
  if plan.scenes.isEmpty then Except.error PlanError.noScenes
  else
    let ids := plan.scenes.map (·.id)
    if ids.dedup.length ≠ ids.length then Except.error PlanError.duplicateIds
    else
      match firstBadDep ids plan.scenes with
      | some sd => Except.error (PlanError.missingDependency sd.1 sd.2)
      | none =>
        match firstExtendNoDeps plan.scenes with
        | some sid => Except.error (PlanError.extendWithoutDeps sid)
        | none =>
          match firstBadRef ids plan.orchestration.parallel_groups with
          | some sid => Except.error (PlanError.orchestrationUnknownScene sid)
          | none =>
            match firstBadRef ids plan.orchestration.sequential_chains with
            | some sid => Except.error (PlanError.orchestrationUnknownScene sid)
            | none => Except.ok ()

/-- The well-formedness property the spec states the validator enforces: at
least one scene; unique scene ids; every dependency and every orchestration
entry references an existing scene id; continuation-mode scenes have at least
one dependency. -/
def planWellFormed (plan : VideoGenerationPlan) : Prop :=
  plan.scenes ≠ [] ∧
  (plan.scenes.map (·.id)).Nodup ∧
  (∀ sc ∈ plan.scenes, ∀ d ∈ sc.dependencies, d ∈ plan.scenes.map (·.id)) ∧
  (∀ sc ∈ plan.scenes, sc.mode = VideoMode.extend_video → sc.dependencies ≠ []) ∧
  (∀ g ∈ plan.orchestration.parallel_groups, ∀ sid ∈ g,
    sid ∈ plan.scenes.map (·.id)) ∧
  (∀ ch ∈ plan.orchestration.sequential_chains, ∀ sid ∈ ch,
    sid ∈ plan.scenes.map (·.id))

instance (plan : VideoGenerationPlan) : Decidable (planWellFormed plan) := by
  unfold planWellFormed; infer_instance

/-! ### The plan branch of the route (`src/common/routes.py`) -/

/-- The HTTP 400s the plan-execution branch can answer before executing. -/
inductive RouteError
  | invalidPlan (e : PlanError)
  | tooManyScenes
deriving DecidableEq, Repr

/-- The plan-execution branch of `unified_generate`: validate first; a
validation failure is returned as an HTTP 400 before any backend call; only a
validated plan (within the scene limit) is executed. -/
def run_plan_request (bk : Backend) (plan : VideoGenerationPlan)
    (owner_id : Option String) (default_aspect : String)
    (default_resolution : String) (default_model : String)
    (avatar_id : Option String) (maxScenes : Nat) :
    Except RouteError (List SceneResult) × List BackendCall :=
  match validate_plan plan with
  | Except.error e => (Except.error (RouteError.invalidPlan e), [])
  | Except.ok () =>
    if plan.scenes.length > maxScenes then (Except.error RouteError.tooManyScenes, [])
    else
      let r := execute_plan bk plan owner_id default_aspect default_resolution
        default_model avatar_id
      (Except.ok r.1, r.2)

/-! ### Concrete instances used to exercise the definitions -/

/-- A deterministic backend: prompts equal to "ok" succeed and produce the
continuation URI "t1"; everything else raises "boom". -/
def exGen : VideoRequest → Except String GenOk := fun req =>
  if req.prompt = "ok" then
    Except.ok { video_url := some "url", video_uri := some "t1", usage_metadata := none }
  else Except.error "boom"

/-- A concrete backend with an in-order scheduler. -/
def exBackend : Backend :=
  { generate_video := exGen
    gen_image := fun p => Except.ok ["img-" ++ p]
    cost_from_usage := fun u _ => u
    video_cost := 7
    elapsed := 3
    sched := id }

/-- A minimal scene with the given id, prompt, mode and dependencies. -/
def mkScene (i : String) (prm : String) (md : VideoMode) (deps : List String) :
    SceneDefinition :=
  { id := i, prompt := prm, mode := md, pre_generate_images := false,
    image_prompts := [], dependencies := deps, aspect := none,
    resolution := none, model := none }

def exSceneA : SceneDefinition := mkScene "s1" "ok" VideoMode.text_to_video []

def exSceneB : SceneDefinition := mkScene "s2" "bad" VideoMode.extend_video ["s1"]

def exSceneC : SceneDefinition := mkScene "s3" "ok" VideoMode.extend_video ["s2"]

/-- A three-scene plan executed as one sequential chain. -/
def exPlanChain : VideoGenerationPlan :=
  { scenes := [exSceneA, exSceneB, exSceneC]
    orchestration := { parallel_groups := [], sequential_chains := [["s1", "s2", "s3"]] } }

/-- A plan whose single scene appears in both a parallel group and a
sequential chain — accepted by the validator. -/
def exPlanDup : VideoGenerationPlan :=
  { scenes := [exSceneA]
    orchestration := { parallel_groups := [["s1"]], sequential_chains := [["s1"]] } }

/-- The empty plan. -/
def exPlanEmpty : VideoGenerationPlan :=
  { scenes := []
    orchestration := { parallel_groups := [], sequential_chains := [] } }

def exDocA : Doc := [("id", "d1"), ("owner_id", "A"), ("name", "x")]

def exDocB : Doc := [("id", "d2"), ("owner_id", "B"), ("name", "x")]

/-- A store with one document for owner A and one for owner B, both matching
the filter `{"name": "x"}`. -/
def exStore : Store := [("items", [("d1", exDocA), ("d2", exDocB)])]

/-- The representation invariant of the store: every Python dict has unique
keys, at the store level and inside every collection. -/
def storeWF (s : Store) : Prop :=
  (s.map (·.1)).Nodup ∧ ∀ p ∈ s, (p.2.map (·.1)).Nodup

instance (s : Store) : Decidable (storeWF s) := by
  unfold storeWF; infer_instance

/-- Every stored document sits under the key equal to its `id` field — true of
every store built through `insert_one`, which always keys a document by its
(ensured) `id`. -/
def storeKeyed (s : Store) : Prop :=
  ∀ p ∈ s, ∀ q ∈ p.2, dictGet q.2 "id" = some q.1

instance (s : Store) : Decidable (storeKeyed s) := by
  unfold storeKeyed; infer_instance

/-! ### Lemmas about the dict primitives -/

theorem dictGet_dictSet_self {α : Type} (l : List (String × α)) (k : String) (v : α) :
    dictGet (dictSet l k v) k = some v := by
  unfold dictGet dictSet
  split
  · rename_i hany
    rw [List.find?_map]
    have hpred : ((fun p : String × α => p.1 == k) ∘
        (fun p : String × α => if p.1 == k then (k, v) else p)) =
        (fun p : String × α => p.1 == k) := by
      funext q
      by_cases hq : q.1 = k <;> simp [hq]
    rw [hpred]
    have hsome : (List.find? (fun p : String × α => p.1 == k) l).isSome := by
      rw [List.find?_isSome]
      rcases List.any_eq_true.mp hany with ⟨p, hp, hpk⟩
      exact ⟨p, hp, hpk⟩
    cases hf : List.find? (fun p : String × α => p.1 == k) l with
    | none => rw [hf] at hsome; simp at hsome
    | some p0 =>
      have hk : (p0.1 == k) = true := by
        have := List.find?_some hf
        simpa using this
      simp [hf, beq_iff_eq.mp hk]
  · rename_i hany
    rw [List.find?_append]
    have hnone : l.find? (fun p => p.1 == k) = none := by
      rw [List.find?_eq_none]
      intro x hx hxk
      exact hany (List.any_eq_true.mpr ⟨x, hx, hxk⟩)
    simp [hnone]

theorem dictGet_dictSet_ne {α : Type} (l : List (String × α)) (k k' : String) (v : α)
    (h : k' ≠ k) : dictGet (dictSet l k v) k' = dictGet l k' := by
  unfold dictGet dictSet
  split
  · rw [List.find?_map]
    have hpred : ((fun p : String × α => p.1 == k') ∘
        (fun p : String × α => if p.1 == k then (k, v) else p)) =
        (fun p : String × α => p.1 == k') := by
      funext q
      by_cases hq : q.1 = k
      · have hkk : (k == k') = false := beq_eq_false_iff_ne.mpr (fun hh => h hh.symm)
        simp [hq, hkk]
      · simp [hq]
    rw [hpred]
    cases hf : l.find? (fun p : String × α => p.1 == k') with
    | none => simp
    | some p0 =>
      have hp0 : p0.1 = k' := by
        have := List.find?_some hf
        simpa using this
      have hne : ¬(p0.1 = k) := by rw [hp0]; exact h
      simp [hne]
  · rw [List.find?_append]
    have hkk : (k == k') = false := beq_eq_false_iff_ne.mpr (fun hh => h hh.symm)
    have hsec : List.find? (fun p : String × α => p.1 == k') [(k, v)] = none := by
      simp [List.find?_cons, hkk]
    rw [hsec, Option.or_none]

theorem keys_dictSet {α : Type} (l : List (String × α)) (k : String) (v : α) :
    (dictSet l k v).map (·.1) = l.map (·.1) ∨
      ((dictSet l k v).map (·.1) = l.map (·.1) ++ [k] ∧ k ∉ l.map (·.1)) := by
  unfold dictSet
  split
  · left
    rw [List.map_map]
    apply List.map_congr_left
    intro q _
    by_cases hq : q.1 = k <;> simp [hq]
  · right
    rename_i hany
    refine ⟨by simp, ?_⟩
    intro hk
    rcases List.mem_map.mp hk with ⟨p, hp, hpk⟩
    exact hany (List.any_eq_true.mpr ⟨p, hp, by simp [hpk]⟩)

theorem keys_dictSet_nodup {α : Type} (l : List (String × α)) (k : String) (v : α)
    (h : (l.map (·.1)).Nodup) : ((dictSet l k v).map (·.1)).Nodup := by
  rcases keys_dictSet l k v with heq | ⟨heq, hmem⟩
  · rw [heq]; exact h
  · rw [heq]
    rw [List.nodup_append]
    exact ⟨h, List.nodup_singleton k, by
      intro a ha hb
      simp at hb
      exact hmem (hb ▸ ha)⟩

theorem dictGet_eq_none_of_not_mem {α : Type} (l : List (String × α)) (k : String)
    (h : k ∉ l.map (·.1)) : dictGet l k = none := by
  unfold dictGet
  have : l.find? (fun p => p.1 == k) = none := by
    rw [List.find?_eq_none]
    intro p hp hpk
    exact h (List.mem_map.mpr ⟨p, hp, beq_iff_eq.mp hpk⟩)
  simp [this]

theorem dictGet_of_mem_nodup {α : Type} (l : List (String × α)) (p : String × α)
    (hmem : p ∈ l) (hnd : (l.map (·.1)).Nodup) : dictGet l p.1 = some p.2 := by
  induction l with
  | nil => cases hmem
  | cons q rest ih =>
    rcases List.mem_cons.mp hmem with heq | hmem2
    · subst heq
      simp [dictGet, List.find?_cons]
    · have hp1 : p.1 ∈ rest.map (·.1) := List.mem_map.mpr ⟨p, hmem2, rfl⟩
      have hqn : q.1 ∉ rest.map (·.1) := by
        simp only [List.map_cons, List.nodup_cons] at hnd
        exact hnd.1
      have hq : (q.1 == p.1) = false := by
        simp only [beq_eq_false_iff_ne, ne_eq]
        intro hqp
        exact hqn (hqp ▸ hp1)
      have hnd2 : (rest.map (·.1)).Nodup := by
        simp only [List.map_cons, List.nodup_cons] at hnd
        exact hnd.2
      simp only [dictGet, List.find?_cons, hq]
      exact ih hmem2 hnd2

/-! ### Lemmas about store plumbing -/

theorem getColl_setColl_self (s : Store) (c : String) (coll : Coll) :
    getColl (setColl s c coll) c = coll := by
  unfold getColl setColl
  rw [dictGet_dictSet_self]
  rfl

theorem getColl_setColl_ne (s : Store) (c c' : String) (coll : Coll) (h : c' ≠ c) :
    getColl (setColl s c coll) c' = getColl s c' := by
  unfold getColl setColl
  rw [dictGet_dictSet_ne _ _ _ _ h]

theorem getColl_ensureColl (s : Store) (c c' : String) :
    getColl (ensureColl s c) c' = getColl s c' := by
  unfold getColl ensureColl
  split
  · rfl
  · rename_i hany
    unfold dictGet
    rw [List.find?_append]
    by_cases hc : c' = c
    · subst hc
      have hnone : s.find? (fun p => p.1 == c') = none := by
        rw [List.find?_eq_none]
        intro x hx hxc
        exact hany (List.any_eq_true.mpr ⟨x, hx, hxc⟩)
      simp [hnone, List.find?_cons]
    · have hsec : List.find? (fun p : String × Coll => p.1 == c') [(c, [])] = none := by
        have : (c == c') = false := beq_eq_false_iff_ne.mpr (fun hh => hc hh.symm)
        simp [List.find?_cons, this]
      rw [hsec, Option.or_none]

/-! ### Lemmas about the collection iterations -/

theorem findDocs_cons_keep (p : String × Doc) (rest : Coll) (filter : Doc)
    (ow : Option String) (how : ownerOk ow p.2 = true)
    (hm : filter.isEmpty = true ∨ docMatches filter p.2 = true) :
    findDocs (p :: rest) filter ow = p.2 :: findDocs rest filter ow := by
  obtain ⟨i, d⟩ := p
  conv_lhs => unfold findDocs
  rcases hm with hm | hm
  · rw [if_pos how, if_pos hm]
  · rw [if_pos how]
    by_cases hfe : filter.isEmpty
    · rw [if_pos hfe]
    · rw [if_neg hfe, if_pos hm]


theorem findDocs_cons_drop (p : String × Doc) (rest : Coll) (filter : Doc)
    (ow : Option String)
    (h : ownerOk ow p.2 = false ∨
      (filter.isEmpty = false ∧ docMatches filter p.2 = false)) :
    findDocs (p :: rest) filter ow = findDocs rest filter ow := by
  obtain ⟨i, d⟩ := p
  conv_lhs => unfold findDocs
  rcases h with h | ⟨h1, h2⟩
  · rw [if_neg (by simp_all)]
  · cases hok : ownerOk ow d
    · rw [if_neg (by simp [hok])]
    · rw [if_pos rfl, if_neg (by simp [h1]), if_neg (by simp [h2])]

theorem findDocs_owner (coll : Coll) (filter : Doc) (a : String) :
    ∀ d ∈ findDocs coll filter (some a), dictGet d "owner_id" = some a := by
  induction coll with
  | nil => intro d hd; cases hd
  | cons p rest ih =>
    intro d hd
    by_cases how : ownerOk (some a) p.2
    · have hown : dictGet p.2 "owner_id" = some a := by
        have h2 := how
        unfold ownerOk at h2
        simpa using h2
      by_cases hkeep : filter.isEmpty = true ∨ docMatches filter p.2 = true
      · rw [findDocs_cons_keep p rest filter (some a) how hkeep] at hd
        rcases List.mem_cons.mp hd with heq | hd2
        · exact heq ▸ hown
        · exact ih d hd2
      · push_neg at hkeep
        rw [findDocs_cons_drop p rest filter (some a)
            (Or.inr ⟨by simpa using hkeep.1, by simpa using hkeep.2⟩)] at hd
        exact ih d hd
    · rw [findDocs_cons_drop p rest filter (some a)
        (Or.inl (by simpa using how))] at hd
      exact ih d hd

theorem findDocs_restrict (coll : Coll) (filter : Doc) (a : String) :
    findDocs coll filter (some a) =
      findDocs (coll.filter (fun p => ownerOk (some a) p.2)) filter (some a) := by
  induction coll with
  | nil => rfl
  | cons p rest ih =>
    by_cases how : ownerOk (some a) p.2
    · have hfc : List.filter (fun q : String × Doc => ownerOk (some a) q.2) (p :: rest)
          = p :: List.filter (fun q : String × Doc => ownerOk (some a) q.2) rest := by
        simp [List.filter_cons, how]
      rw [hfc]
      by_cases hkeep : filter.isEmpty = true ∨ docMatches filter p.2 = true
      · rw [findDocs_cons_keep p rest filter (some a) how hkeep,
          findDocs_cons_keep p _ filter (some a) how hkeep, ih]
      · push_neg at hkeep
        have hdrop : List.isEmpty filter = false ∧ docMatches filter p.2 = false :=
          ⟨by simpa using hkeep.1, by simpa using hkeep.2⟩
        rw [findDocs_cons_drop p rest filter (some a) (Or.inr hdrop),
          findDocs_cons_drop p _ filter (some a) (Or.inr hdrop), ih]
    · have hfc : List.filter (fun q : String × Doc => ownerOk (some a) q.2) (p :: rest)
          = List.filter (fun q : String × Doc => ownerOk (some a) q.2) rest := by
        simp [List.filter_cons, how]
      rw [hfc]
      rw [findDocs_cons_drop p rest filter (some a) (Or.inl (by simpa using how)), ih]

theorem updateColl_eq_none_iff (coll : Coll) (filter patch : Doc) (ow : Option String) :
    updateColl coll filter patch ow = none ↔
      ∀ p ∈ coll, scopedMatch ow filter p.2 = false := by
  induction coll with
  | nil => simp [updateColl]
  | cons p rest ih =>
    unfold updateColl
    by_cases hm : scopedMatch ow filter p.2
    · simp [hm]
    · rw [if_neg hm]
      constructor
      · intro hn q hq
        have hrest : updateColl rest filter patch ow = none := by
          cases hrec : updateColl rest filter patch ow with
          | none => rfl
          | some r => rw [hrec] at hn; cases hn
        rcases List.mem_cons.mp hq with heq | hq2
        · subst heq; simpa using hm
        · exact ih.mp hrest q hq2
      · intro hall
        have hrest : updateColl rest filter patch ow = none :=
          ih.mpr (fun q hq => hall q (List.mem_cons_of_mem _ hq))
        rw [hrest]
        rfl

theorem updateColl_some_decomp (coll : Coll) (filter patch : Doc) (ow : Option String)
    (d : Doc) (coll' : Coll) (h : updateColl coll filter patch ow = some (d, coll')) :
    ∃ pre k d0 post, coll = pre ++ (k, d0) :: post ∧
      (∀ p ∈ pre, scopedMatch ow filter p.2 = false) ∧
      scopedMatch ow filter d0 = true ∧
      d = dUpdate d0 patch ∧
      coll' = pre ++ (k, dUpdate d0 patch) :: post := by
  induction coll generalizing coll' with
  | nil => simp [updateColl] at h
  | cons p rest ih =>
    unfold updateColl at h
    by_cases hm : scopedMatch ow filter p.2
    · rw [if_pos hm] at h
      have hinj := Option.some.inj h
      have h1 : d = dUpdate p.2 patch := by
        simpa using (congrArg Prod.fst hinj).symm
      have h2 : coll' = (p.1, dUpdate p.2 patch) :: rest := by
        simpa using (congrArg Prod.snd hinj).symm
      exact ⟨[], p.1, p.2, rest, by simp, by simp, hm, h1, by simp [h2]⟩
    · rw [if_neg hm] at h
      cases hrec : updateColl rest filter patch ow with
      | none => rw [hrec] at h; cases h
      | some r =>
        rw [hrec] at h
        have h' : some (r.1, p :: r.2) = some (d, coll') := h
        have hinj := Option.some.inj h'
        have h1 : d = r.1 := by simpa using (congrArg Prod.fst hinj).symm
        have h2 : coll' = p :: r.2 := by simpa using (congrArg Prod.snd hinj).symm
        obtain ⟨pre, k, d0, post, hcoll, hpre, hd0, hd, hcoll'⟩ :=
          ih r.2 (by rw [hrec, h1])
        refine ⟨p :: pre, k, d0, post, by rw [List.cons_append, ← hcoll], ?_,
          hd0, h1 ▸ hd, ?_⟩
        · intro q hq
          rcases List.mem_cons.mp hq with heq | hq2
          · subst heq; simpa using hm
          · exact hpre q hq2
        · rw [h2, hcoll']
          simp

theorem deleteColl_eq_none_iff (coll : Coll) (filter : Doc) (ow : Option String) :
    deleteColl coll filter ow = none ↔
      ∀ p ∈ coll, scopedMatch ow filter p.2 = false := by
  induction coll with
  | nil => simp [deleteColl]
  | cons p rest ih =>
    unfold deleteColl
    by_cases hm : scopedMatch ow filter p.2
    · simp [hm]
    · rw [if_neg hm]
      constructor
      · intro hn q hq
        have hrest : deleteColl rest filter ow = none := by
          cases hrec : deleteColl rest filter ow with
          | none => rfl
          | some r => rw [hrec] at hn; cases hn
        rcases List.mem_cons.mp hq with heq | hq2
        · subst heq; simpa using hm
        · exact ih.mp hrest q hq2
      · intro hall
        have hrest : deleteColl rest filter ow = none :=
          ih.mpr (fun q hq => hall q (List.mem_cons_of_mem _ hq))
        rw [hrest]
        rfl

theorem deleteColl_some_decomp (coll : Coll) (filter : Doc) (ow : Option String)
    (d : Doc) (coll' : Coll) (h : deleteColl coll filter ow = some (d, coll')) :
    ∃ pre k post, coll = pre ++ (k, d) :: post ∧
      (∀ p ∈ pre, scopedMatch ow filter p.2 = false) ∧
      scopedMatch ow filter d = true ∧
      coll' = pre ++ post := by
  induction coll generalizing coll' with
  | nil => simp [deleteColl] at h
  | cons p rest ih =>
    unfold deleteColl at h
    by_cases hm : scopedMatch ow filter p.2
    · rw [if_pos hm] at h
      have hinj := Option.some.inj h
      have h1 : d = p.2 := by simpa using (congrArg Prod.fst hinj).symm
      have h2 : coll' = rest := by simpa using (congrArg Prod.snd hinj).symm
      exact ⟨[], p.1, rest, by simp [h1], by simp, h1 ▸ hm, by simp [h2]⟩
    · rw [if_neg hm] at h
      cases hrec : deleteColl rest filter ow with
      | none => rw [hrec] at h; cases h
      | some r =>
        rw [hrec] at h
        have h' : some (r.1, p :: r.2) = some (d, coll') := h
        have hinj := Option.some.inj h'
        have h1 : d = r.1 := by simpa using (congrArg Prod.fst hinj).symm
        have h2 : coll' = p :: r.2 := by simpa using (congrArg Prod.snd hinj).symm
        obtain ⟨pre, k, post, hcoll, hpre, hd, hcoll'⟩ :=
          ih r.2 (by rw [hrec, h1])
        refine ⟨p :: pre, k, post, by rw [List.cons_append, ← hcoll], ?_, hd, ?_⟩
        · intro q hq
          rcases List.mem_cons.mp hq with heq | hq2
          · subst heq; simpa using hm
          · exact hpre q hq2
        · rw [h2, hcoll']
          simp

theorem update_one_eq (s : Store) (c : String) (filter patch : Doc) (ow : Option String) :
    update_one s c filter patch ow =
      match updateColl (getColl s c) filter patch ow with
      | some r => (Except.ok r.1, setColl (ensureColl s c) c r.2)
      | none => (Except.error "document not found", ensureColl s c) := by
  unfold update_one
  dsimp only []
  rw [getColl_ensureColl]

theorem delete_one_eq (s : Store) (c : String) (filter : Doc) (ow : Option String) :
    delete_one s c filter ow =
      match deleteColl (getColl s c) filter ow with
      | some r => (Except.ok r.1, setColl (ensureColl s c) c r.2)
      | none => (Except.error "document not found", ensureColl s c) := by
  unfold delete_one
  dsimp only []
  rw [getColl_ensureColl]

theorem getColl_update_one_ne (s : Store) (c : String) (filter patch : Doc)
    (ow : Option String) (c' : String) (h : c' ≠ c) :
    getColl (update_one s c filter patch ow).2 c' = getColl s c' := by
  rw [update_one_eq]
  cases updateColl (getColl s c) filter patch ow with
  | none => exact getColl_ensureColl s c c'
  | some r => rw [getColl_setColl_ne _ _ _ _ h, getColl_ensureColl]

theorem getColl_delete_one_ne (s : Store) (c : String) (filter : Doc)
    (ow : Option String) (c' : String) (h : c' ≠ c) :
    getColl (delete_one s c filter ow).2 c' = getColl s c' := by
  rw [delete_one_eq]
  cases deleteColl (getColl s c) filter ow with
  | none => exact getColl_ensureColl s c c'
  | some r => rw [getColl_setColl_ne _ _ _ _ h, getColl_ensureColl]

theorem ownerOk_some_iff (a : String) (d : Doc) :
    ownerOk (some a) d = true ↔ dictGet d "owner_id" = some a := by
  unfold ownerOk
  simp

theorem scopedMatch_owner (a : String) (filter d : Doc)
    (h : scopedMatch (some a) filter d = true) : dictGet d "owner_id" = some a := by
  unfold scopedMatch at h
  rw [Bool.and_eq_true] at h
  exact (ownerOk_some_iff a d).mp h.1

/-- C7 as frozen is falsified by `update_one`: scoped to owner "A", with a
patch that overwrites `owner_id`, the call returns a document whose
`owner_id` is "B", not "A". -/
theorem owner_scope_update_can_return_foreign_owner :
    (update_one exStore "items" [] [("owner_id", "B")] (some "A")).1 =
      Except.ok [("id", "d1"), ("owner_id", "B"), ("name", "x")] ∧
    dictGet [("id", "d1"), ("owner_id", "B"), ("name", "x")] "owner_id" ≠ some "A" := by
  constructor
  · rfl
  · decide

/-- C7 (amended): a find/find_one scoped to owner A returns only documents
whose `owner_id` is A, and its result is computed solely from A's documents;
update/delete scoped to A select only a document owned by A (update returns
the patch merged into such a document), and every document of a different
owner survives unmodified, as does every other collection. -/
theorem owner_scoped_isolation (s : Store) (c : String) (filter patch : Doc)
    (a : String) :
    (∀ d ∈ find s c filter (some a), dictGet d "owner_id" = some a) ∧
    (∀ d, find_one s c filter (some a) = some d → dictGet d "owner_id" = some a) ∧
    (find s c filter (some a) =
      findDocs ((getColl s c).filter (fun p => ownerOk (some a) p.2)) filter (some a)) ∧
    (∀ d, (update_one s c filter patch (some a)).1 = Except.ok d →
      ∃ d0, dictGet d0 "owner_id" = some a ∧ d = dUpdate d0 patch) ∧
    (∀ p ∈ getColl s c, dictGet p.2 "owner_id" ≠ some a →
      p ∈ getColl (update_one s c filter patch (some a)).2 c) ∧
    (∀ d, (delete_one s c filter (some a)).1 = Except.ok d →
      dictGet d "owner_id" = some a) ∧
    (∀ p ∈ getColl s c, dictGet p.2 "owner_id" ≠ some a →
      p ∈ getColl (delete_one s c filter (some a)).2 c) ∧
    (∀ c', c' ≠ c →
      getColl (update_one s c filter patch (some a)).2 c' = getColl s c' ∧
      getColl (delete_one s c filter (some a)).2 c' = getColl s c') := by
  refine ⟨findDocs_owner _ _ _, ?_, findDocs_restrict _ _ _, ?_, ?_, ?_, ?_, ?_⟩
  · intro d hd
    unfold find_one at hd
    cases hf : find s c filter (some a) with
    | nil => rw [hf] at hd; cases hd
    | cons x xs =>
      rw [hf] at hd
      have hdx : d = x := by simpa using hd.symm
      subst hdx
      exact findDocs_owner _ _ _ d (by rw [show findDocs (getColl s c) filter (some a) = find s c filter (some a) from rfl, hf]; exact List.mem_cons_self _ _)
  · intro d hd
    rw [update_one_eq] at hd
    cases hcase : updateColl (getColl s c) filter patch (some a) with
    | none => rw [hcase] at hd; cases hd
    | some r =>
      rw [hcase] at hd
      have hdr : d = r.1 := by
        have := hd
        simp at this
        exact this.symm
      obtain ⟨pre, k, d0, post, hcoll, hpre, hd0, hdup, hcoll'⟩ :=
        updateColl_some_decomp _ _ _ _ r.1 r.2 (by rw [hcase])
      exact ⟨d0, scopedMatch_owner a filter d0 hd0, hdr ▸ hdup⟩
  · intro p hp hown
    rw [update_one_eq]
    cases hcase : updateColl (getColl s c) filter patch (some a) with
    | none =>
      dsimp only
      rw [getColl_ensureColl]
      exact hp
    | some r =>
      dsimp only
      rw [getColl_setColl_self]
      obtain ⟨pre, k, d0, post, hcoll, hpre, hd0, hdup, hcoll'⟩ :=
        updateColl_some_decomp _ _ _ _ r.1 r.2 (by rw [hcase])
      rw [hcoll']
      rw [hcoll] at hp
      rcases List.mem_append.mp hp with hmem | hmem
      · exact List.mem_append_left _ hmem
      · rcases List.mem_cons.mp hmem with heq | hmem2
        · exfalso
          apply hown
          rw [show p.2 = d0 from by rw [heq]]
          exact scopedMatch_owner a filter d0 hd0
        · exact List.mem_append_right _ (List.mem_cons_of_mem _ hmem2)
  · intro d hd
    rw [delete_one_eq] at hd
    cases hcase : deleteColl (getColl s c) filter (some a) with
    | none => rw [hcase] at hd; cases hd
    | some r =>
      rw [hcase] at hd
      have hdr : d = r.1 := by
        have := hd
        simp at this
        exact this.symm
      obtain ⟨pre, k, post, hcoll, hpre, hd0, hcoll'⟩ :=
        deleteColl_some_decomp _ _ _ r.1 r.2 (by rw [hcase])
      exact hdr ▸ scopedMatch_owner a filter r.1 hd0
  · intro p hp hown
    rw [delete_one_eq]
    cases hcase : deleteColl (getColl s c) filter (some a) with
    | none =>
      dsimp only
      rw [getColl_ensureColl]
      exact hp
    | some r =>
      dsimp only
      rw [getColl_setColl_self]
      obtain ⟨pre, k, post, hcoll, hpre, hd0, hcoll'⟩ :=
        deleteColl_some_decomp _ _ _ r.1 r.2 (by rw [hcase])
      rw [hcoll']
      rw [hcoll] at hp
      rcases List.mem_append.mp hp with hmem | hmem
      · exact List.mem_append_left _ hmem
      · rcases List.mem_cons.mp hmem with heq | hmem2
        · exfalso
          apply hown
          rw [show p.2 = r.1 from by rw [heq]]
          exact scopedMatch_owner a filter r.1 hd0
        · exact List.mem_append_right _ hmem2
  · intro c' hc'
    exact ⟨getColl_update_one_ne s c filter patch (some a) c' hc',
      getColl_delete_one_ne s c filter (some a) c' hc'⟩

/-- Witness: in the concrete two-owner store, owner B's document survives an
update scoped to owner A, and every document a find scoped to A returns is
owned by A. -/
theorem owner_scoped_isolation_witness :
    ("d2", exDocB) ∈
      getColl (update_one exStore "items" [("name", "x")] [("name", "y")] (some "A")).2 "items" ∧
    dictGet exDocA "owner_id" = some "A" :=
  ⟨(owner_scoped_isolation exStore "items" [("name", "x")] [("name", "y")] "A").2.2.2.2.1
    ("d2", exDocB) (by decide) (by decide),
   (owner_scoped_isolation exStore "items" [("name", "x")] [("name", "y")] "A").1
    exDocA (by decide)⟩

/-- C8: update merges the patch into the first scoped match and returns it;
delete removes and returns the first scoped match; each fails with the
distinct NotFound error exactly when no document in the collection matches
under the owner scope, and on that error every collection is unchanged. -/
theorem update_delete_first_match (s : Store) (c : String) (filter patch : Doc)
    (ow : Option String) :
    ((update_one s c filter patch ow).1 = Except.error "document not found" ↔
      ∀ p ∈ getColl s c, scopedMatch ow filter p.2 = false) ∧
    ((update_one s c filter patch ow).1 = Except.error "document not found" →
      ∀ c', getColl (update_one s c filter patch ow).2 c' = getColl s c') ∧
    (∀ d, (update_one s c filter patch ow).1 = Except.ok d →
      ∃ pre k d0 post, getColl s c = pre ++ (k, d0) :: post ∧
        (∀ p ∈ pre, scopedMatch ow filter p.2 = false) ∧
        scopedMatch ow filter d0 = true ∧ d = dUpdate d0 patch ∧
        getColl (update_one s c filter patch ow).2 c =
          pre ++ (k, dUpdate d0 patch) :: post) ∧
    ((delete_one s c filter ow).1 = Except.error "document not found" ↔
      ∀ p ∈ getColl s c, scopedMatch ow filter p.2 = false) ∧
    ((delete_one s c filter ow).1 = Except.error "document not found" →
      ∀ c', getColl (delete_one s c filter ow).2 c' = getColl s c') ∧
    (∀ d, (delete_one s c filter ow).1 = Except.ok d →
      ∃ pre k post, getColl s c = pre ++ (k, d) :: post ∧
        (∀ p ∈ pre, scopedMatch ow filter p.2 = false) ∧
        scopedMatch ow filter d = true ∧
        getColl (delete_one s c filter ow).2 c = pre ++ post) := by
  refine ⟨?_, ?_, ?_, ?_, ?_, ?_⟩
  · rw [update_one_eq]
    cases hcase : updateColl (getColl s c) filter patch ow with
    | none =>
      simpa using (updateColl_eq_none_iff (getColl s c) filter patch ow).mp hcase
    | some r =>
      constructor
      · intro h; cases h
      · intro hall
        exfalso
        obtain ⟨pre, k, d0, post, hcoll, hpre, hd0, hdup, hcoll'⟩ :=
          updateColl_some_decomp _ _ _ _ r.1 r.2 (by rw [hcase])
        have : (k, d0) ∈ getColl s c := by
          rw [hcoll]
          exact List.mem_append_right _ (List.mem_cons_self _ _)
        have hfalse := hall (k, d0) this
        rw [hfalse] at hd0
        cases hd0
  · intro herr c'
    rw [update_one_eq] at herr ⊢
    cases hcase : updateColl (getColl s c) filter patch ow with
    | none =>
      dsimp only
      exact getColl_ensureColl s c c'
    | some r => rw [hcase] at herr; cases herr
  · intro d hd
    rw [update_one_eq] at hd ⊢
    cases hcase : updateColl (getColl s c) filter patch ow with
    | none => rw [hcase] at hd; cases hd
    | some r =>
      rw [hcase] at hd
      have hdr : d = r.1 := by
        have := hd
        simp at this
        exact this.symm
      obtain ⟨pre, k, d0, post, hcoll, hpre, hd0, hdup, hcoll'⟩ :=
        updateColl_some_decomp _ _ _ _ r.1 r.2 (by rw [hcase])
      refine ⟨pre, k, d0, post, hcoll, hpre, hd0, hdr ▸ hdup, ?_⟩
      dsimp only
      rw [getColl_setColl_self, hcoll']
  · rw [delete_one_eq]
    cases hcase : deleteColl (getColl s c) filter ow with
    | none =>
      simpa using (deleteColl_eq_none_iff (getColl s c) filter ow).mp hcase
    | some r =>
      constructor
      · intro h; cases h
      · intro hall
        exfalso
        obtain ⟨pre, k, post, hcoll, hpre, hd0, hcoll'⟩ :=
          deleteColl_some_decomp _ _ _ r.1 r.2 (by rw [hcase])
        have : (k, r.1) ∈ getColl s c := by
          rw [hcoll]
          exact List.mem_append_right _ (List.mem_cons_self _ _)
        have hfalse := hall (k, r.1) this
        rw [hfalse] at hd0
        cases hd0
  · intro herr c'
    rw [delete_one_eq] at herr ⊢
    cases hcase : deleteColl (getColl s c) filter ow with
    | none =>
      dsimp only
      exact getColl_ensureColl s c c'
    | some r => rw [hcase] at herr; cases herr
  · intro d hd
    rw [delete_one_eq] at hd ⊢
    cases hcase : deleteColl (getColl s c) filter ow with
    | none => rw [hcase] at hd; cases hd
    | some r =>
      rw [hcase] at hd
      have hdr : d = r.1 := by
        have := hd
        simp at this
        exact this.symm
      obtain ⟨pre, k, post, hcoll, hpre, hd0, hcoll'⟩ :=
        deleteColl_some_decomp _ _ _ r.1 r.2 (by rw [hcase])
      subst hdr
      refine ⟨pre, k, post, hcoll, hpre, hd0, ?_⟩
      dsimp only
      rw [getColl_setColl_self, hcoll']

/-- Witness: in the concrete store, a filter matching nothing yields the
NotFound error and leaves the collection unchanged, for update and delete. -/
theorem update_delete_first_match_witness :
    (update_one exStore "items" [("name", "zzz")] [("name", "y")] none).1 =
      Except.error "document not found" ∧
    getColl (update_one exStore "items" [("name", "zzz")] [("name", "y")] none).2 "items" =
      getColl exStore "items" ∧
    getColl (delete_one exStore "items" [("name", "zzz")] none).2 "items" =
      getColl exStore "items" :=
  ⟨rfl,
   (update_delete_first_match exStore "items" [("name", "zzz")] [("name", "y")] none).2.1
     rfl "items",
   (update_delete_first_match exStore "items" [("name", "zzz")] [("name", "y")] none).2.2.2.2.1
     rfl "items"⟩

/-! ### Lemmas for the store invariant (C10) and the snapshot round-trip (C9) -/

theorem mem_dictSet {α : Type} (l : List (String × α)) (k : String) (v : α)
    (p : String × α) (hp : p ∈ dictSet l k v) : p = (k, v) ∨ p ∈ l := by
  unfold dictSet at hp
  split at hp
  · rcases List.mem_map.mp hp with ⟨q, hq, hqp⟩
    by_cases hqk : q.1 = k
    · left
      rw [← hqp]
      simp [hqk]
    · right
      rw [← hqp]
      simpa [hqk] using hq
  · rcases List.mem_append.mp hp with h | h
    · exact Or.inr h
    · left
      simpa using h

theorem mem_ensureColl (s : Store) (c : String) (p : String × Coll)
    (hp : p ∈ ensureColl s c) : p = (c, []) ∨ p ∈ s := by
  unfold ensureColl at hp
  split at hp
  · exact Or.inr hp
  · rcases List.mem_append.mp hp with h | h
    · exact Or.inr h
    · left; simpa using h

theorem keys_ensureColl_nodup (s : Store) (c : String)
    (h : (s.map (·.1)).Nodup) : ((ensureColl s c).map (·.1)).Nodup := by
  unfold ensureColl
  split
  · exact h
  · rename_i hany
    rw [List.map_append, List.nodup_append]
    refine ⟨h, by simp, ?_⟩
    intro a ha hb
    simp only [List.map_cons, List.map_nil, List.mem_singleton] at hb
    subst hb
    rcases List.mem_map.mp ha with ⟨q, hq, hqa⟩
    exact hany (List.any_eq_true.mpr ⟨q, hq, by simp [hqa]⟩)

theorem getColl_keys_nodup (s : Store)
    (h : ∀ p ∈ s, (p.2.map (·.1)).Nodup) (c : String) :
    ((getColl s c).map (·.1)).Nodup := by
  unfold getColl dictGet
  cases hf : s.find? (fun p => p.1 == c) with
  | none => simp
  | some p =>
    exact h p (List.mem_of_find?_eq_some hf)

theorem getColl_mem_or_empty (s : Store) (c : String) :
    getColl s c = [] ∨ (c, getColl s c) ∈ s := by
  unfold getColl dictGet
  cases hf : s.find? (fun p => p.1 == c) with
  | none => simp
  | some p =>
    right
    have hpc : p.1 = c := by
      have := List.find?_some hf
      simpa using this
    have := List.mem_of_find?_eq_some hf
    simpa [← hpc] using this

theorem storeWF_setColl (s : Store) (c : String) (coll : Coll)
    (hWF : storeWF s) (hcoll : (coll.map (·.1)).Nodup) :
    storeWF (setColl s c coll) := by
  constructor
  · exact keys_dictSet_nodup s c coll hWF.1
  · intro p hp
    rcases mem_dictSet s c coll p hp with heq | hmem
    · rw [heq]
      exact hcoll
    · exact hWF.2 p hmem

theorem storeWF_ensureColl (s : Store) (c : String) (hWF : storeWF s) :
    storeWF (ensureColl s c) := by
  constructor
  · exact keys_ensureColl_nodup s c hWF.1
  · intro p hp
    rcases mem_ensureColl s c p hp with heq | hmem
    · rw [heq]; simp
    · exact hWF.2 p hmem

theorem getColl_eq_of_not_mem (s : Store) (c : String)
    (h : c ∉ s.map (·.1)) : getColl s c = [] := by
  unfold getColl
  rw [dictGet_eq_none_of_not_mem s c h]
  rfl

theorem insert_one_eq (s : Store) (c freshId : String) (document : Doc) :
    insert_one s c freshId document =
      ((ensureId document freshId).1,
        setColl (ensureColl s c) c
          (dictSet (getColl s c) (ensureId document freshId).2
            (ensureId document freshId).1)) := by
  unfold insert_one
  dsimp only []
  rw [getColl_ensureColl]

theorem dictGet_ensureId (document : Doc) (freshId : String) :
    dictGet (ensureId document freshId).1 "id" = some (ensureId document freshId).2 := by
  unfold ensureId
  cases h : dictGet document "id" with
  | some i => exact h
  | none => exact dictGet_dictSet_self document "id" freshId

/-- C10: the store keeps one document per id — `insert_one` with an existing
id silently replaces in place (keys unchanged); the returned document is the
(copied) input with an id ensured (fresh when absent) and is exactly what is
stored under that id; and the unique-keys invariant is preserved by insert,
update and delete. -/
theorem insert_upsert_and_id_invariant (s : Store) (c freshId : String)
    (document : Doc) (filter patch : Doc) (ow : Option String) :
    (insert_one s c freshId document).1 = (ensureId document freshId).1 ∧
    dictGet (insert_one s c freshId document).1 "id" =
      some (ensureId document freshId).2 ∧
    (∀ i, dictGet document "id" = some i →
      (insert_one s c freshId document).1 = document) ∧
    dictGet (getColl (insert_one s c freshId document).2 c)
        (ensureId document freshId).2 =
      some (insert_one s c freshId document).1 ∧
    (∀ i, dictGet document "id" = some i → i ∈ (getColl s c).map (·.1) →
      (getColl (insert_one s c freshId document).2 c).map (·.1) =
        (getColl s c).map (·.1)) ∧
    (storeWF s →
      storeWF (insert_one s c freshId document).2 ∧
      storeWF (update_one s c filter patch ow).2 ∧
      storeWF (delete_one s c filter ow).2) := by
  refine ⟨by rw [insert_one_eq], ?_, ?_, ?_, ?_, ?_⟩
  · rw [insert_one_eq]
    exact dictGet_ensureId document freshId
  · intro i hi
    rw [insert_one_eq]
    unfold ensureId
    rw [hi]
  · rw [insert_one_eq]
    dsimp only
    rw [getColl_setColl_self]
    exact dictGet_dictSet_self _ _ _
  · intro i hi hmem
    rw [insert_one_eq]
    dsimp only
    rw [getColl_setColl_self]
    have hid : ensureId document freshId = (document, i) := by
      unfold ensureId
      rw [hi]
    rw [hid]
    rcases keys_dictSet (getColl s c) i document with heq | ⟨heq, hni⟩
    · exact heq
    · exact absurd hmem hni
  · intro hWF
    refine ⟨?_, ?_, ?_⟩
    · rw [insert_one_eq]
      exact storeWF_setColl _ _ _ (storeWF_ensureColl s c hWF)
        (keys_dictSet_nodup _ _ _ (getColl_keys_nodup s hWF.2 c))
    · rw [update_one_eq]
      cases hcase : updateColl (getColl s c) filter patch ow with
      | none => exact storeWF_ensureColl s c hWF
      | some r =>
        obtain ⟨pre, k, d0, post, hcoll, hpre, hd0, hdup, hcoll'⟩ :=
          updateColl_some_decomp _ _ _ _ r.1 r.2 (by rw [hcase])
        refine storeWF_setColl _ _ _ (storeWF_ensureColl s c hWF) ?_
        have hkeys : (r.2.map (·.1)) = ((getColl s c).map (·.1)) := by
          rw [hcoll', hcoll]
          simp
        rw [hkeys]
        exact getColl_keys_nodup s hWF.2 c
    · rw [delete_one_eq]
      cases hcase : deleteColl (getColl s c) filter ow with
      | none => exact storeWF_ensureColl s c hWF
      | some r =>
        obtain ⟨pre, k, post, hcoll, hpre, hd0, hcoll'⟩ :=
          deleteColl_some_decomp _ _ _ r.1 r.2 (by rw [hcase])
        refine storeWF_setColl _ _ _ (storeWF_ensureColl s c hWF) ?_
        have hsub : (r.2.map (·.1)).Sublist ((getColl s c).map (·.1)) := by
          rw [hcoll', hcoll]
          simp only [List.map_append, List.map_cons]
          exact (List.sublist_cons_self _ _).append_left _
        exact (getColl_keys_nodup s hWF.2 c).sublist hsub

/-- Witness: inserting a document whose id "d1" already exists replaces the
stored document in place, keeping one document per id. -/
theorem insert_upsert_and_id_invariant_witness :
    (getColl (insert_one exStore "items" "f0" [("id", "d1"), ("name", "q")]).2
        "items").map (·.1) = (getColl exStore "items").map (·.1) ∧
    storeWF (insert_one exStore "items" "f0" [("id", "d1"), ("name", "q")]).2 :=
  ⟨(insert_upsert_and_id_invariant exStore "items" "f0"
      [("id", "d1"), ("name", "q")] [] [] none).2.2.2.2.1 "d1" (by decide) (by decide),
   ((insert_upsert_and_id_invariant exStore "items" "f0"
      [("id", "d1"), ("name", "q")] [] [] none).2.2.2.2.2 (by decide)).1⟩

theorem ensureColl_idem (s : Store) (c : String) :
    ensureColl (ensureColl s c) c = ensureColl s c := by
  unfold ensureColl
  split
  · rfl
  · rw [if_pos]
    rw [List.any_append]
    simp

theorem dictSet_append_of_not_mem {α : Type} (l : List (String × α)) (k : String)
    (v : α) (h : k ∉ l.map (·.1)) : dictSet l k v = l ++ [(k, v)] := by
  unfold dictSet
  rw [if_neg]
  intro hany
  rcases List.any_eq_true.mp hany with ⟨p, hp, hpk⟩
  exact h (List.mem_map.mpr ⟨p, hp, beq_iff_eq.mp hpk⟩)

theorem ensureId_of_some (document : Doc) (freshId k : String)
    (h : dictGet document "id" = some k) :
    ensureId document freshId = (document, k) := by
  unfold ensureId
  rw [h]

theorem loadDoc_step (t : Store) (c fresh : String) (d : Doc) (k : String)
    (hid : dictGet d "id" = some k) (hnot : k ∉ (getColl t c).map (·.1)) :
    loadDoc t c fresh d = setColl (ensureColl t c) c (getColl t c ++ [(k, d)]) := by
  unfold loadDoc
  rw [hid]
  dsimp only
  have hfind : (getColl (ensureColl t c) c).find? (fun p => p.1 == k) = none := by
    rw [getColl_ensureColl, List.find?_eq_none]
    intro p hp hpk
    exact hnot (List.mem_map.mpr ⟨p, hp, beq_iff_eq.mp hpk⟩)
  rw [hfind]
  rw [insert_one_eq]
  dsimp only
  rw [ensureColl_idem, ensureId_of_some d fresh k hid]
  rw [getColl_ensureColl]
  rw [dictSet_append_of_not_mem _ _ _ hnot]

theorem loadDocs_reconstruct (c : String) (freshSupply : Nat → String)
    (coll : Coll) :
    ∀ (t : Store) (n : Nat),
      (∀ q ∈ coll, dictGet q.2 "id" = some q.1) →
      ((coll.map (·.1)).Nodup) →
      (∀ q ∈ coll, q.1 ∉ (getColl t c).map (·.1)) →
      getColl (loadDocs c freshSupply (t, n) (coll.map (·.2))).1 c =
          getColl t c ++ coll ∧
        ∀ c', c' ≠ c →
          getColl (loadDocs c freshSupply (t, n) (coll.map (·.2))).1 c' =
            getColl t c' := by
  induction coll with
  | nil =>
    intro t n _ _ _
    exact ⟨by simp [loadDocs], fun c' _ => by simp [loadDocs]⟩
  | cons q rest ih =>
    intro t n hkeyed hnodup hdisj
    have hid : dictGet q.2 "id" = some q.1 := hkeyed q (List.mem_cons_self _ _)
    have hnot : q.1 ∉ (getColl t c).map (·.1) := hdisj q (List.mem_cons_self _ _)
    have hstep := loadDoc_step t c (freshSupply n) q.2 q.1 hid hnot
    have hfold : loadDocs c freshSupply (t, n) ((q :: rest).map (·.2)) =
        loadDocs c freshSupply (loadDoc t c (freshSupply n) q.2, n + 1)
          (rest.map (·.2)) := by
      unfold loadDocs
      simp [List.foldl_cons]
    have hc1 : getColl (loadDoc t c (freshSupply n) q.2) c = getColl t c ++ [q] := by
      rw [hstep, getColl_setColl_self]
    have hne1 : ∀ c', c' ≠ c →
        getColl (loadDoc t c (freshSupply n) q.2) c' = getColl t c' := by
      intro c' hc'
      rw [hstep, getColl_setColl_ne _ _ _ _ hc', getColl_ensureColl]
    have hnodup2 : (rest.map (·.1)).Nodup := by
      simp only [List.map_cons, List.nodup_cons] at hnodup
      exact hnodup.2
    have hq1 : q.1 ∉ rest.map (·.1) := by
      simp only [List.map_cons, List.nodup_cons] at hnodup
      exact hnodup.1
    have hdisj2 : ∀ p ∈ rest,
        p.1 ∉ (getColl (loadDoc t c (freshSupply n) q.2) c).map (·.1) := by
      intro p hp
      rw [hc1]
      rw [List.map_append]
      intro hmem
      rcases List.mem_append.mp hmem with h1 | h1
      · exact hdisj p (List.mem_cons_of_mem _ hp) h1
      · simp only [List.map_cons, List.map_nil, List.mem_singleton] at h1
        exact hq1 (h1 ▸ List.mem_map.mpr ⟨p, hp, rfl⟩)
    obtain ⟨ihc, ihne⟩ := ih (loadDoc t c (freshSupply n) q.2) (n + 1)
      (fun p hp => hkeyed p (List.mem_cons_of_mem _ hp)) hnodup2 hdisj2
    rw [hfold]
    constructor
    · rw [ihc, hc1, List.append_assoc]
      rfl
    · intro c' hc'
      rw [ihne c' hc', hne1 c' hc']

theorem loadFiles_reconstruct (freshSupply : Nat → String) (fs : List (String × Coll)) :
    ∀ (t : Store) (n : Nat),
      (∀ f ∈ fs, (∀ q ∈ f.2, dictGet q.2 "id" = some q.1) ∧ (f.2.map (·.1)).Nodup) →
      ((fs.map (·.1)).Nodup) →
      (∀ f ∈ fs, getColl t f.1 = []) →
      (∀ f ∈ fs,
        getColl (fs.foldl
          (fun acc g => loadDocs g.1 freshSupply acc (g.2.map (·.2))) (t, n)).1 f.1 = f.2) ∧
      (∀ c, c ∉ fs.map (·.1) →
        getColl (fs.foldl
          (fun acc g => loadDocs g.1 freshSupply acc (g.2.map (·.2))) (t, n)).1 c =
          getColl t c) := by
  induction fs with
  | nil =>
    intro t n _ _ _
    exact ⟨fun f hf => absurd hf (List.not_mem_nil f), fun c _ => rfl⟩
  | cons f rest ih =>
    intro t n hfs houter hempty
    have hfold : (f :: rest).foldl
        (fun acc g => loadDocs g.1 freshSupply acc (g.2.map (·.2))) (t, n) =
        rest.foldl (fun acc g => loadDocs g.1 freshSupply acc (g.2.map (·.2)))
          (loadDocs f.1 freshSupply (t, n) (f.2.map (·.2))) := by
      rw [List.foldl_cons]
    have hd0 : ∀ q ∈ f.2, q.1 ∉ (getColl t f.1).map (·.1) := by
      intro q _
      rw [hempty f (List.mem_cons_self _ _)]
      simp
    obtain ⟨hc1, hne1⟩ := loadDocs_reconstruct f.1 freshSupply f.2 t n
      (hfs f (List.mem_cons_self _ _)).1 (hfs f (List.mem_cons_self _ _)).2 hd0
    have hc1' : getColl (loadDocs f.1 freshSupply (t, n) (f.2.map (·.2))).1 f.1 = f.2 := by
      rw [hc1, hempty f (List.mem_cons_self _ _)]
      rfl
    have hf1notin : f.1 ∉ rest.map (·.1) := by
      simp only [List.map_cons, List.nodup_cons] at houter
      exact houter.1
    have houter2 : (rest.map (·.1)).Nodup := by
      simp only [List.map_cons, List.nodup_cons] at houter
      exact houter.2
    have hempty2 : ∀ g ∈ rest,
        getColl (loadDocs f.1 freshSupply (t, n) (f.2.map (·.2))).1 g.1 = [] := by
      intro g hg
      have hgne : g.1 ≠ f.1 := by
        intro hgf
        exact hf1notin (hgf ▸ List.mem_map.mpr ⟨g, hg, rfl⟩)
      rw [hne1 g.1 hgne]
      exact hempty g (List.mem_cons_of_mem _ hg)
    obtain ⟨ih1, ih2⟩ := ih (loadDocs f.1 freshSupply (t, n) (f.2.map (·.2))).1
      (loadDocs f.1 freshSupply (t, n) (f.2.map (·.2))).2
      (fun g hg => hfs g (List.mem_cons_of_mem _ hg)) houter2 hempty2
    rw [hfold]
    constructor
    · intro g hg
      rcases List.mem_cons.mp hg with heq | hg2
      · subst heq
        rw [show rest.foldl (fun acc g => loadDocs g.1 freshSupply acc (g.2.map (·.2)))
            (loadDocs g.1 freshSupply (t, n) (g.2.map (·.2))) =
          rest.foldl (fun acc g => loadDocs g.1 freshSupply acc (g.2.map (·.2)))
            ((loadDocs g.1 freshSupply (t, n) (g.2.map (·.2))).1,
             (loadDocs g.1 freshSupply (t, n) (g.2.map (·.2))).2) from rfl]
        rw [ih2 g.1 hf1notin]
        exact hc1'
      · rw [show rest.foldl (fun acc g => loadDocs g.1 freshSupply acc (g.2.map (·.2)))
            (loadDocs f.1 freshSupply (t, n) (f.2.map (·.2))) =
          rest.foldl (fun acc g => loadDocs g.1 freshSupply acc (g.2.map (·.2)))
            ((loadDocs f.1 freshSupply (t, n) (f.2.map (·.2))).1,
             (loadDocs f.1 freshSupply (t, n) (f.2.map (·.2))).2) from rfl]
        exact ih1 g hg2
    · intro c hc
      have hcrest : c ∉ rest.map (·.1) := by
        intro hmem
        exact hc (by simp [hmem])
      have hcf : c ≠ f.1 := by
        intro hcf
        exact hc (by simp [hcf])
      rw [show rest.foldl (fun acc g => loadDocs g.1 freshSupply acc (g.2.map (·.2)))
            (loadDocs f.1 freshSupply (t, n) (f.2.map (·.2))) =
          rest.foldl (fun acc g => loadDocs g.1 freshSupply acc (g.2.map (·.2)))
            ((loadDocs f.1 freshSupply (t, n) (f.2.map (·.2))).1,
             (loadDocs f.1 freshSupply (t, n) (f.2.map (·.2))).2) from rfl]
      rw [ih2 c hcrest]
      exact hne1 c hcf

/-- C9: snapshot round-trip — dumping every collection to its file, starting
from a cleared in-memory store, and loading all the files back yields a store
whose every collection holds exactly the same documents (same ids, identical
fields, same count) as the original, for any store satisfying the
representation invariants maintained by `insert_one`. -/
theorem snapshot_roundtrip (s : Store) (freshSupply : Nat → String)
    (hWF : storeWF s) (hkeyed : storeKeyed s) :
    ∀ c, getColl (load_from_files [] (dump_to_files s) freshSupply) c =
      getColl s c := by
  intro c
  have hload : load_from_files [] (dump_to_files s) freshSupply =
      (s.foldl (fun acc g => loadDocs g.1 freshSupply acc (g.2.map (·.2)))
        (([] : Store), 0)).1 := by
    unfold load_from_files dump_to_files
    rw [List.foldl_map]
  rw [hload]
  obtain ⟨h1, h2⟩ := loadFiles_reconstruct freshSupply s ([] : Store) 0
    (fun f hf => ⟨hkeyed f hf, hWF.2 f hf⟩) hWF.1
    (fun f _ => rfl)
  by_cases hmem : c ∈ s.map (·.1)
  · rcases List.mem_map.mp hmem with ⟨p, hp, hpc⟩
    have hgc : getColl s c = p.2 := by
      unfold getColl
      rw [← hpc, dictGet_of_mem_nodup s p hp hWF.1]
      rfl
    rw [hgc, ← hpc]
    exact h1 p hp
  · rw [h2 c hmem, getColl_eq_of_not_mem s c hmem]
    rfl

/-- Witness: the concrete two-owner store round-trips through dump and load. -/
theorem snapshot_roundtrip_witness :
    getColl (load_from_files [] (dump_to_files exStore) (fun _ => "f")) "items" =
      getColl exStore "items" :=
  snapshot_roundtrip exStore (fun _ => "f") (by decide) (by decide) "items"

/-! ### Lemmas about the plan validator (C6) -/

theorem dedup_length_iff (l : List String) : l.dedup.length = l.length ↔ l.Nodup := by
  constructor
  · intro h
    have heq : l.dedup = l := (List.dedup_sublist l).eq_of_length h
    rw [← heq]
    exact List.nodup_dedup l
  · intro h
    rw [List.dedup_eq_self.mpr h]

theorem firstBadDep_eq_none_iff (ids : List String) (scenes : List SceneDefinition) :
    firstBadDep ids scenes = none ↔
      ∀ sc ∈ scenes, ∀ d ∈ sc.dependencies, d ∈ ids := by
  induction scenes with
  | nil => simp [firstBadDep]
  | cons sc rest ih =>
    unfold firstBadDep
    cases hfind : sc.dependencies.find? (fun d => !(ids.contains d)) with
    | some d =>
      have hd : d ∈ sc.dependencies := List.mem_of_find?_eq_some hfind
      have hna : d ∉ ids := by
        have := List.find?_some hfind
        simpa using this
      simp only [reduceCtorEq, false_iff]
      intro hall
      exact hna (hall sc (List.mem_cons_self _ _) d hd)
    | none =>
      have hall1 : ∀ d ∈ sc.dependencies, d ∈ ids := by
        intro d hd
        have := List.find?_eq_none.mp hfind d hd
        simpa using this
      rw [ih]
      constructor
      · intro h sc2 hsc2 d hd
        rcases List.mem_cons.mp hsc2 with heq | hsc2r
        · exact hall1 d (heq ▸ hd)
        · exact h sc2 hsc2r d hd
      · intro h sc2 hsc2 d hd
        exact h sc2 (List.mem_cons_of_mem _ hsc2) d hd

theorem firstExtendNoDeps_eq_none_iff (scenes : List SceneDefinition) :
    firstExtendNoDeps scenes = none ↔
      ∀ sc ∈ scenes, sc.mode = VideoMode.extend_video → sc.dependencies ≠ [] := by
  induction scenes with
  | nil => simp [firstExtendNoDeps]
  | cons sc rest ih =>
    unfold firstExtendNoDeps
    by_cases hc : sc.mode = VideoMode.extend_video ∧ sc.dependencies = []
    · rw [if_pos (by simp [hc.1, hc.2])]
      simp only [reduceCtorEq, false_iff]
      intro hall
      exact hall sc (List.mem_cons_self _ _) hc.1 hc.2
    · rw [if_neg (by
        intro hb
        rw [Bool.and_eq_true] at hb
        exact hc ⟨by simpa using hb.1, by simpa using hb.2⟩)]
      rw [ih]
      constructor
      · intro h sc2 hsc2 hm
        rcases List.mem_cons.mp hsc2 with heq | hsc2r
        · subst heq
          intro hdep
          exact hc ⟨hm, hdep⟩
        · exact h sc2 hsc2r hm
      · intro h sc2 hsc2 hm
        exact h sc2 (List.mem_cons_of_mem _ hsc2) hm

theorem firstBadRef_eq_none_iff (ids : List String) (gs : List (List String)) :
    firstBadRef ids gs = none ↔ ∀ g ∈ gs, ∀ sid ∈ g, sid ∈ ids := by
  induction gs with
  | nil => simp [firstBadRef]
  | cons g rest ih =>
    unfold firstBadRef
    cases hfind : g.find? (fun sid => !(ids.contains sid)) with
    | some sid =>
      have hs : sid ∈ g := List.mem_of_find?_eq_some hfind
      have hna : sid ∉ ids := by
        have := List.find?_some hfind
        simpa using this
      simp only [reduceCtorEq, false_iff]
      intro hall
      exact hna (hall g (List.mem_cons_self _ _) sid hs)
    | none =>
      have hall1 : ∀ sid ∈ g, sid ∈ ids := by
        intro sid hsid
        have := List.find?_eq_none.mp hfind sid hsid
        simpa using this
      rw [ih]
      constructor
      · intro h g2 hg2 sid hsid
        rcases List.mem_cons.mp hg2 with heq | hg2r
        · exact hall1 sid (heq ▸ hsid)
        · exact h g2 hg2r sid hsid
      · intro h g2 hg2 sid hsid
        exact h g2 (List.mem_cons_of_mem _ hg2) sid hsid

theorem validate_plan_ok_iff (p : VideoGenerationPlan) :
    validate_plan p = Except.ok () ↔ planWellFormed p := by
  unfold validate_plan planWellFormed
  by_cases h1 : p.scenes.isEmpty
  · rw [if_pos h1]
    rw [List.isEmpty_iff] at h1
    exact iff_of_false (by simp) (fun hcon => hcon.1 h1)
  · rw [if_neg h1]
    dsimp only
    rw [List.isEmpty_iff] at h1
    by_cases h2 : (p.scenes.map (·.id)).dedup.length ≠ (p.scenes.map (·.id)).length
    · rw [if_pos h2]
      have hnd : ¬((p.scenes.map (·.id)).Nodup) := by
        intro hnd
        exact h2 ((dedup_length_iff _).mpr hnd)
      exact iff_of_false (by simp) (fun hcon => hnd hcon.2.1)
    · rw [if_neg h2]
      push_neg at h2
      have hnd : (p.scenes.map (·.id)).Nodup := (dedup_length_iff _).mp h2
      cases h3 : firstBadDep (p.scenes.map (·.id)) p.scenes with
      | some sd =>
        have hbad : ¬(∀ sc ∈ p.scenes, ∀ d ∈ sc.dependencies,
            d ∈ p.scenes.map (·.id)) := by
          intro hall
          have := (firstBadDep_eq_none_iff _ _).mpr hall
          rw [this] at h3
          cases h3
        exact iff_of_false (by simp) (fun hcon => hbad hcon.2.2.1)
      | none =>
        have hdeps := (firstBadDep_eq_none_iff _ _).mp h3
        cases h4 : firstExtendNoDeps p.scenes with
        | some sid =>
          have hbad : ¬(∀ sc ∈ p.scenes, sc.mode = VideoMode.extend_video →
              sc.dependencies ≠ []) := by
            intro hall
            have := (firstExtendNoDeps_eq_none_iff _).mpr hall
            rw [this] at h4
            cases h4
          exact iff_of_false (by simp) (fun hcon => hbad hcon.2.2.2.1)
        | none =>
          have hext := (firstExtendNoDeps_eq_none_iff _).mp h4
          cases h5 : firstBadRef (p.scenes.map (·.id)) p.orchestration.parallel_groups with
          | some sid =>
            have hbad : ¬(∀ g ∈ p.orchestration.parallel_groups, ∀ sid2 ∈ g,
                sid2 ∈ p.scenes.map (·.id)) := by
              intro hall
              have := (firstBadRef_eq_none_iff _ _).mpr hall
              rw [this] at h5
              cases h5
            exact iff_of_false (by simp) (fun hcon => hbad hcon.2.2.2.2.1)
          | none =>
            have hpar := (firstBadRef_eq_none_iff _ _).mp h5
            cases h6 : firstBadRef (p.scenes.map (·.id)) p.orchestration.sequential_chains with
            | some sid =>
              have hbad : ¬(∀ ch ∈ p.orchestration.sequential_chains, ∀ sid2 ∈ ch,
                  sid2 ∈ p.scenes.map (·.id)) := by
                intro hall
                have := (firstBadRef_eq_none_iff _ _).mpr hall
                rw [this] at h6
                cases h6
              exact iff_of_false (by simp) (fun hcon => hbad hcon.2.2.2.2.2)
            | none =>
              have hseq := (firstBadRef_eq_none_iff _ _).mp h6
              exact iff_of_true rfl ⟨h1, hnd, hdeps, hext, hpar, hseq⟩

/-- C6: the validator rejects exactly the structurally malformed plans (no
scenes; duplicate ids; dangling dependency; continuation scene without
dependencies; dangling orchestration entry), in the fixed source order with
the first violation winning, and a rejected plan causes zero external backend
calls through the route. -/
theorem validator_exactness_and_order (p : VideoGenerationPlan) (bk : Backend)
    (owner_id : Option String) (default_aspect default_resolution default_model : String)
    (avatar_id : Option String) (maxScenes : Nat) :
    (validate_plan p = Except.ok () ↔ planWellFormed p) ∧
    (p.scenes = [] → validate_plan p = Except.error PlanError.noScenes) ∧
    (p.scenes ≠ [] → ¬((p.scenes.map (·.id)).Nodup) →
      validate_plan p = Except.error PlanError.duplicateIds) ∧
    (∀ sid dep, p.scenes ≠ [] → (p.scenes.map (·.id)).Nodup →
      firstBadDep (p.scenes.map (·.id)) p.scenes = some (sid, dep) →
      validate_plan p = Except.error (PlanError.missingDependency sid dep)) ∧
    (∀ sid, p.scenes ≠ [] → (p.scenes.map (·.id)).Nodup →
      firstBadDep (p.scenes.map (·.id)) p.scenes = none →
      firstExtendNoDeps p.scenes = some sid →
      validate_plan p = Except.error (PlanError.extendWithoutDeps sid)) ∧
    (∀ sid, p.scenes ≠ [] → (p.scenes.map (·.id)).Nodup →
      firstBadDep (p.scenes.map (·.id)) p.scenes = none →
      firstExtendNoDeps p.scenes = none →
      (firstBadRef (p.scenes.map (·.id)) p.orchestration.parallel_groups = some sid ∨
        (firstBadRef (p.scenes.map (·.id)) p.orchestration.parallel_groups = none ∧
         firstBadRef (p.scenes.map (·.id)) p.orchestration.sequential_chains = some sid)) →
      validate_plan p = Except.error (PlanError.orchestrationUnknownScene sid)) ∧
    (∀ e, validate_plan p = Except.error e →
      run_plan_request bk p owner_id default_aspect default_resolution
        default_model avatar_id maxScenes =
        (Except.error (RouteError.invalidPlan e), [])) := by
  have hne_isEmpty : p.scenes ≠ [] → p.scenes.isEmpty = false := by
    intro h
    cases hs : p.scenes with
    | nil => exact absurd hs h
    | cons a l => rfl
  have hdedup_ne : ¬((p.scenes.map (·.id)).Nodup) →
      (p.scenes.map (·.id)).dedup.length ≠ (p.scenes.map (·.id)).length := by
    intro hnd h
    exact hnd ((dedup_length_iff _).mp h)
  have hdedup_eq : (p.scenes.map (·.id)).Nodup →
      ¬((p.scenes.map (·.id)).dedup.length ≠ (p.scenes.map (·.id)).length) := by
    intro hnd h
    exact h ((dedup_length_iff _).mpr hnd)
  refine ⟨validate_plan_ok_iff p, ?_, ?_, ?_, ?_, ?_, ?_⟩
  · intro h
    unfold validate_plan
    rw [if_pos (by rw [h]; rfl)]
  · intro hne hnd
    unfold validate_plan
    rw [if_neg (by rw [hne_isEmpty hne]; simp)]
    dsimp only
    rw [if_pos (hdedup_ne hnd)]
  · intro sid dep hne hnd hbd
    unfold validate_plan
    rw [if_neg (by rw [hne_isEmpty hne]; simp)]
    dsimp only
    rw [if_neg (hdedup_eq hnd), hbd]
  · intro sid hne hnd hbd hext
    unfold validate_plan
    rw [if_neg (by rw [hne_isEmpty hne]; simp)]
    dsimp only
    rw [if_neg (hdedup_eq hnd), hbd, hext]
  · intro sid hne hnd hbd hext horch
    unfold validate_plan
    rw [if_neg (by rw [hne_isEmpty hne]; simp)]
    dsimp only
    rw [if_neg (hdedup_eq hnd), hbd, hext]
    rcases horch with h5 | ⟨h5, h6⟩
    · rw [h5]
    · rw [h5, h6]
  · intro e herr
    unfold run_plan_request
    rw [herr]

/-- Witness: a plan with a continuation scene that has no dependencies is
rejected with the extend-without-dependencies error, and the route makes zero
backend calls for it. -/
theorem validator_exactness_and_order_witness :
    validate_plan
        { scenes := [mkScene "x" "p" VideoMode.extend_video []]
          orchestration := { parallel_groups := [], sequential_chains := [] } } =
      Except.error (PlanError.extendWithoutDeps "x") ∧
    run_plan_request exBackend
        { scenes := [mkScene "x" "p" VideoMode.extend_video []]
          orchestration := { parallel_groups := [], sequential_chains := [] } }
        none "16:9" "720p" "m" none 10 =
      (Except.error (RouteError.invalidPlan (PlanError.extendWithoutDeps "x")), []) :=
  ⟨(validator_exactness_and_order
      { scenes := [mkScene "x" "p" VideoMode.extend_video []]
        orchestration := { parallel_groups := [], sequential_chains := [] } }
      exBackend none "16:9" "720p" "m" none 10).2.2.2.2.1 "x"
      (by decide) (by decide) (by decide) (by decide),
   (validator_exactness_and_order
      { scenes := [mkScene "x" "p" VideoMode.extend_video []]
        orchestration := { parallel_groups := [], sequential_chains := [] } }
      exBackend none "16:9" "720p" "m" none 10).2.2.2.2.2.2
      (PlanError.extendWithoutDeps "x") rfl⟩

/-! ### Lemmas about the scene executor (C2, C4, C5) -/

theorem execute_single_scene_scene_id (bk : Backend) (scene : SceneDefinition)
    (owner_id previous_video_uri : Option String) (imgs : Option (List ImageAsset))
    (da dr dm : String) (av : Option String) :
    (execute_single_scene bk scene owner_id previous_video_uri imgs da dr dm av).1.scene_id =
      scene.id := by
  unfold execute_single_scene
  split
  · rfl
  · dsimp only
    split <;> rfl

/-- C4: the scene executor is total; the result always preserves the supplied
pre-generated images and carries the measured elapsed duration and the scene
id; a failed result always carries an error message; and whenever the backend
call raises, the result is `success = false` with exactly the captured
message. -/
theorem scene_executor_never_raises (bk : Backend) (scene : SceneDefinition)
    (owner_id previous_video_uri : Option String) (imgs : Option (List ImageAsset))
    (da dr dm : String) (av : Option String) :
    (execute_single_scene bk scene owner_id previous_video_uri imgs da dr dm av).1.generated_images = imgs ∧
    (execute_single_scene bk scene owner_id previous_video_uri imgs da dr dm av).1.duration_seconds = bk.elapsed ∧
    (execute_single_scene bk scene owner_id previous_video_uri imgs da dr dm av).1.scene_id = scene.id ∧
    ((execute_single_scene bk scene owner_id previous_video_uri imgs da dr dm av).1.success = false →
      ((execute_single_scene bk scene owner_id previous_video_uri imgs da dr dm av).1.error).isSome) ∧
    (¬(scene.mode = VideoMode.extend_video ∧ previous_video_uri = none) →
      ∀ e, bk.generate_video
          (buildVideoRequest scene owner_id previous_video_uri da dr dm av) =
          Except.error e →
        (execute_single_scene bk scene owner_id previous_video_uri imgs da dr dm av).1.success = false ∧
        (execute_single_scene bk scene owner_id previous_video_uri imgs da dr dm av).1.error = some e) := by
  unfold execute_single_scene
  by_cases hpre : scene.mode = VideoMode.extend_video ∧ previous_video_uri = none
  · rw [if_pos hpre]
    exact ⟨rfl, rfl, rfl, fun _ => rfl, fun hc => absurd hpre hc⟩
  · rw [if_neg hpre]
    dsimp only
    cases hgen : bk.generate_video
        (buildVideoRequest scene owner_id previous_video_uri da dr dm av) with
    | ok r =>
      refine ⟨rfl, rfl, rfl, ?_, ?_⟩
      · intro h
        simp at h
      · intro _ e he
        cases he
    | error e0 =>
      refine ⟨rfl, rfl, rfl, fun _ => rfl, ?_⟩
      intro _ e he
      cases he
      exact ⟨rfl, rfl⟩

/-- Witness: a non-continuation scene whose backend call raises "boom" comes
back as a failed result carrying exactly that message, with images, duration
and scene id preserved. -/
theorem scene_executor_never_raises_witness :
    (execute_single_scene exBackend (mkScene "w" "bad" VideoMode.text_to_video [])
        none none (some ["i1"]) "16:9" "720p" "m" none).1.success = false ∧
    (execute_single_scene exBackend (mkScene "w" "bad" VideoMode.text_to_video [])
        none none (some ["i1"]) "16:9" "720p" "m" none).1.error = some "boom" :=
  (scene_executor_never_raises exBackend (mkScene "w" "bad" VideoMode.text_to_video [])
      none none (some ["i1"]) "16:9" "720p" "m" none).2.2.2.2
    (by decide) "boom" rfl

/-- C5: a continuation (extend-video) scene invoked with no previous video URI
returns a failed result carrying the precondition error message, and the
backend is never called for it (its call trace is empty). -/
theorem continuation_without_token_fails_before_backend (bk : Backend)
    (scene : SceneDefinition) (owner_id : Option String)
    (imgs : Option (List ImageAsset)) (da dr dm : String) (av : Option String)
    (hmode : scene.mode = VideoMode.extend_video) :
    execute_single_scene bk scene owner_id none imgs da dr dm av =
      ({ scene_id := scene.id
         success := false
         video_url := none
         video_uri := none
         generated_images := imgs
         error := some (extendErrMsg scene.id)
         duration_seconds := bk.elapsed
         cost := none }, []) := by
  unfold execute_single_scene
  rw [if_pos ⟨hmode, rfl⟩]

/-- Witness: a concrete continuation scene with no token yields the failed
result and an empty backend-call trace. -/
theorem continuation_without_token_witness :
    execute_single_scene exBackend exSceneB none none (some []) "16:9" "720p" "m" none =
      ({ scene_id := "s2"
         success := false
         video_url := none
         video_uri := none
         generated_images := some []
         error := some (extendErrMsg "s2")
         duration_seconds := 3
         cost := none }, []) :=
  continuation_without_token_fails_before_backend exBackend exSceneB none
    (some []) "16:9" "720p" "m" none (by decide)

theorem seqLoop_cons (bk : Backend) (owner_id : Option String)
    (scene_images : List (String × List ImageAsset)) (da dr dm : String)
    (av : Option String) (sc : SceneDefinition) (rest : List SceneDefinition)
    (prev : Option String) :
    seqLoop bk owner_id scene_images da dr dm av (sc :: rest) prev =
      ((execute_single_scene bk sc owner_id prev
          (some (imagesFor scene_images sc.id)) da dr dm av).1 ::
        (seqLoop bk owner_id scene_images da dr dm av rest
          (if (execute_single_scene bk sc owner_id prev
              (some (imagesFor scene_images sc.id)) da dr dm av).1.success then
            match (execute_single_scene bk sc owner_id prev
                (some (imagesFor scene_images sc.id)) da dr dm av).1.video_uri with
            | some u => some u
            | none => prev
          else prev)).1,
       (execute_single_scene bk sc owner_id prev
          (some (imagesFor scene_images sc.id)) da dr dm av).2 ++
        (seqLoop bk owner_id scene_images da dr dm av rest
          (if (execute_single_scene bk sc owner_id prev
              (some (imagesFor scene_images sc.id)) da dr dm av).1.success then
            match (execute_single_scene bk sc owner_id prev
                (some (imagesFor scene_images sc.id)) da dr dm av).1.video_uri with
            | some u => some u
            | none => prev
          else prev)).2) := by
  conv_lhs => unfold seqLoop

/-- C2: in a chain [A, B, C], A runs with an empty continuation token; when A
succeeds producing token t1, B runs with t1; when B then fails, or succeeds
without producing a token, C still runs with t1 — the runner never aborts and
returns exactly one result per scene of the chain, in order. -/
theorem seq_chain_threads_last_good_token (bk : Backend) (a b c : SceneDefinition)
    (owner_id : Option String) (scene_images : List (String × List ImageAsset))
    (da dr dm : String) (av : Option String) (t1 : String)
    (haS : (execute_single_scene bk a owner_id none
      (some (imagesFor scene_images a.id)) da dr dm av).1.success = true)
    (haU : (execute_single_scene bk a owner_id none
      (some (imagesFor scene_images a.id)) da dr dm av).1.video_uri = some t1)
    (hb : (execute_single_scene bk b owner_id (some t1)
        (some (imagesFor scene_images b.id)) da dr dm av).1.success = false ∨
      (execute_single_scene bk b owner_id (some t1)
        (some (imagesFor scene_images b.id)) da dr dm av).1.video_uri = none) :
    (execute_sequential_scenes bk [a, b, c] owner_id scene_images da dr dm av).1 =
      [(execute_single_scene bk a owner_id none
          (some (imagesFor scene_images a.id)) da dr dm av).1,
       (execute_single_scene bk b owner_id (some t1)
          (some (imagesFor scene_images b.id)) da dr dm av).1,
       (execute_single_scene bk c owner_id (some t1)
          (some (imagesFor scene_images c.id)) da dr dm av).1] := by
  unfold execute_sequential_scenes
  rw [seqLoop_cons]
  rw [haS, haU]
  simp only [if_true]
  rw [seqLoop_cons]
  have hprevC :
      (if (execute_single_scene bk b owner_id (some t1)
          (some (imagesFor scene_images b.id)) da dr dm av).1.success then
        match (execute_single_scene bk b owner_id (some t1)
            (some (imagesFor scene_images b.id)) da dr dm av).1.video_uri with
        | some u => some u
        | none => some t1
      else some t1) = some t1 := by
    rcases hb with hb | hb
    · rw [hb]
      simp
    · rw [hb]
      simp
  rw [hprevC]
  rw [seqLoop_cons]
  rfl

/-- Witness: under the concrete backend, the chain [A, B, C] produces exactly
the results of A at no token, B at "t1", and C at "t1" (B failed). -/
theorem seq_chain_threads_last_good_token_witness :
    (execute_sequential_scenes exBackend [exSceneA, exSceneB, exSceneC] none []
        "16:9" "720p" "m" none).1 =
      [(execute_single_scene exBackend exSceneA none none
          (some (imagesFor [] exSceneA.id)) "16:9" "720p" "m" none).1,
       (execute_single_scene exBackend exSceneB none (some "t1")
          (some (imagesFor [] exSceneB.id)) "16:9" "720p" "m" none).1,
       (execute_single_scene exBackend exSceneC none (some "t1")
          (some (imagesFor [] exSceneC.id)) "16:9" "720p" "m" none).1] :=
  seq_chain_threads_last_good_token exBackend exSceneA exSceneB exSceneC none []
    "16:9" "720p" "m" none "t1" (by decide) (by decide) (Or.inl (by decide))

/-! ### Lemmas about the orchestrator aggregation (C1, C3) -/

theorem seqLoop_scene_ids (bk : Backend) (owner_id : Option String)
    (scene_images : List (String × List ImageAsset)) (da dr dm : String)
    (av : Option String) :
    ∀ (scenes : List SceneDefinition) (prev : Option String),
      (seqLoop bk owner_id scene_images da dr dm av scenes prev).1.map (·.scene_id) =
        scenes.map (·.id) := by
  intro scenes
  induction scenes with
  | nil => intro prev; rfl
  | cons sc rest ih =>
    intro prev
    rw [seqLoop_cons]
    simp only [List.map_cons]
    rw [execute_single_scene_scene_id, ih]

theorem execute_sequential_scenes_ids (bk : Backend) (scenes : List SceneDefinition)
    (owner_id : Option String) (scene_images : List (String × List ImageAsset))
    (da dr dm : String) (av : Option String) :
    (execute_sequential_scenes bk scenes owner_id scene_images da dr dm av).1.map
      (·.scene_id) = scenes.map (·.id) := by
  unfold execute_sequential_scenes
  exact seqLoop_scene_ids bk owner_id scene_images da dr dm av scenes none

theorem execute_parallel_scenes_ids_perm (bk : Backend)
    (hsched : ∀ l, (bk.sched l).Perm l) (scenes : List SceneDefinition)
    (owner_id : Option String) (scene_images : List (String × List ImageAsset))
    (da dr dm : String) (av : Option String) :
    ((execute_parallel_scenes bk scenes owner_id scene_images da dr dm av).1.map
      (·.scene_id)).Perm (scenes.map (·.id)) := by
  unfold execute_parallel_scenes
  dsimp only
  have hperm := (hsched ((scenes.map (fun sc =>
    execute_single_scene bk sc owner_id none (some (imagesFor scene_images sc.id))
      da dr dm av)).map (·.1))).map (·.scene_id)
  have heq : (((scenes.map (fun sc =>
      execute_single_scene bk sc owner_id none (some (imagesFor scene_images sc.id))
        da dr dm av)).map (·.1)).map (·.scene_id)) = scenes.map (·.id) := by
    rw [List.map_map, List.map_map]
    apply List.map_congr_left
    intro sc _
    exact execute_single_scene_scene_id bk sc owner_id none
      (some (imagesFor scene_images sc.id)) da dr dm av
  rw [heq] at hperm
  exact hperm

theorem runGroups_acc
    (runner : List SceneDefinition → List SceneResult × List BackendCall)
    (lookup : String → Option SceneDefinition) :
    ∀ (groups : List (List String)) (acc : List SceneResult × List BackendCall),
      groups.foldl
        (fun acc group =>
          let group_scenes := group.filterMap lookup
          if group_scenes.isEmpty then acc
          else
            let r := runner group_scenes
            (acc.1 ++ r.1, acc.2 ++ r.2)) acc =
      (acc.1 ++ (runGroups runner lookup groups).1,
        acc.2 ++ (runGroups runner lookup groups).2) := by
  intro groups
  induction groups with
  | nil =>
    intro acc
    simp [runGroups]
  | cons g rest ih =>
    intro acc
    rw [List.foldl_cons]
    have hG : runGroups runner lookup (g :: rest) =
        rest.foldl
          (fun acc group =>
            let group_scenes := group.filterMap lookup
            if group_scenes.isEmpty then acc
            else
              let r := runner group_scenes
              (acc.1 ++ r.1, acc.2 ++ r.2))
          (if (g.filterMap lookup).isEmpty then (([], []) : List SceneResult × List BackendCall)
           else ((runner (g.filterMap lookup)).1, (runner (g.filterMap lookup)).2)) := by
      unfold runGroups
      rw [List.foldl_cons]
      by_cases hemp : (g.filterMap lookup).isEmpty
      · rw [if_pos hemp]
        dsimp only
        rw [if_pos hemp]
      · rw [if_neg hemp]
        dsimp only
        rw [if_neg hemp]
        simp
    by_cases hemp : (g.filterMap lookup).isEmpty
    · rw [hG, if_pos hemp]
      dsimp only
      rw [if_pos hemp]
      rw [ih acc, ih ([], [])]
      simp
    · rw [hG, if_neg hemp]
      dsimp only
      rw [if_neg hemp]
      rw [ih ((runner (g.filterMap lookup)).1, (runner (g.filterMap lookup)).2),
        ih (acc.1 ++ (runner (g.filterMap lookup)).1, acc.2 ++ (runner (g.filterMap lookup)).2)]
      simp [List.append_assoc]

theorem runGroups_cons
    (runner : List SceneDefinition → List SceneResult × List BackendCall)
    (lookup : String → Option SceneDefinition) (g : List String)
    (rest : List (List String)) :
    runGroups runner lookup (g :: rest) =
      ((if (g.filterMap lookup).isEmpty then []
          else (runner (g.filterMap lookup)).1) ++ (runGroups runner lookup rest).1,
       (if (g.filterMap lookup).isEmpty then []
          else (runner (g.filterMap lookup)).2) ++ (runGroups runner lookup rest).2) := by
  by_cases hemp : (g.filterMap lookup).isEmpty
  · conv_lhs => unfold runGroups
    rw [List.foldl_cons]
    dsimp only
    rw [if_pos hemp]
    rw [runGroups_acc runner lookup rest ([], [])]
    rw [if_pos hemp, if_pos hemp]
  · conv_lhs => unfold runGroups
    rw [List.foldl_cons]
    dsimp only
    rw [if_neg hemp]
    rw [runGroups_acc runner lookup rest
      (([] : List SceneResult) ++ (runner (g.filterMap lookup)).1,
       ([] : List BackendCall) ++ (runner (g.filterMap lookup)).2)]
    rw [if_neg hemp, if_neg hemp]
    simp [List.append_assoc]

theorem runGroups_ids_perm
    (runner : List SceneDefinition → List SceneResult × List BackendCall)
    (lookup : String → Option SceneDefinition) (groups : List (List String))
    (hrunner : ∀ scs, ((runner scs).1.map (·.scene_id)).Perm (scs.map (·.id))) :
    ((runGroups runner lookup groups).1.map (·.scene_id)).Perm
      ((groups.map (fun g => (g.filterMap lookup).map (·.id))).flatten) := by
  induction groups with
  | nil => simp [runGroups]
  | cons g rest ih =>
    rw [runGroups_cons]
    dsimp only
    rw [List.map_append, List.map_cons, List.flatten_cons]
    by_cases hemp : (g.filterMap lookup).isEmpty
    · rw [if_pos hemp]
      rw [List.isEmpty_iff] at hemp
      rw [hemp]
      simpa using ih
    · rw [if_neg hemp]
      exact (hrunner (g.filterMap lookup)).append ih

theorem sceneLookup_id (scenes : List SceneDefinition) (sid : String) :
    ∀ (init : Option SceneDefinition),
      (∀ sc, init = some sc → sc.id = sid) →
      ∀ sc, scenes.foldl (fun acc sc => if sc.id == sid then some sc else acc) init =
          some sc → sc.id = sid := by
  induction scenes with
  | nil =>
    intro init hinit sc h
    exact hinit sc h
  | cons sc0 rest ih =>
    intro init hinit sc h
    rw [List.foldl_cons] at h
    refine ih _ ?_ sc h
    intro sc1 hsc1
    by_cases h0 : sc0.id = sid
    · rw [if_pos (by simp [h0])] at hsc1
      cases hsc1
      exact h0
    · rw [if_neg (by simp [h0])] at hsc1
      exact hinit sc1 hsc1

theorem sceneLookup_isSome (scenes : List SceneDefinition) (sid : String) :
    ∀ (init : Option SceneDefinition),
      (sid ∈ scenes.map (·.id) ∨ init.isSome) →
      (scenes.foldl (fun acc sc => if sc.id == sid then some sc else acc)
        init).isSome := by
  induction scenes with
  | nil =>
    intro init h
    rcases h with h | h
    · cases h
    · exact h
  | cons sc0 rest ih =>
    intro init h
    rw [List.foldl_cons]
    by_cases h0 : sc0.id = sid
    · rw [if_pos (by simp [h0])]
      exact ih _ (Or.inr rfl)
    · rw [if_neg (by simp [h0])]
      rcases h with h | h
      · rw [List.map_cons] at h
        rcases List.mem_cons.mp h with heq | hmem
        · exact absurd heq.symm h0
        · exact ih init (Or.inl hmem)
      · exact ih init (Or.inr h)

theorem sceneLookup_resolves (scenes : List SceneDefinition) (sid : String)
    (hmem : sid ∈ scenes.map (·.id)) :
    ∃ sc, sceneLookup scenes sid = some sc ∧ sc.id = sid := by
  have hsome := sceneLookup_isSome scenes sid none (Or.inl hmem)
  unfold sceneLookup
  cases hl : scenes.foldl (fun acc sc => if sc.id == sid then some sc else acc) none with
  | none =>
    unfold sceneLookup at hsome
    rw [hl] at hsome
    cases hsome
  | some sc =>
    exact ⟨sc, rfl, sceneLookup_id scenes sid none (fun _ h => by cases h) sc hl⟩

theorem group_resolved (scenes : List SceneDefinition) (g : List String)
    (hsub : ∀ sid ∈ g, sid ∈ scenes.map (·.id)) :
    (g.filterMap (sceneLookup scenes)).map (·.id) = g := by
  induction g with
  | nil => rfl
  | cons sid rest ih =>
    obtain ⟨sc, hsc, hid⟩ := sceneLookup_resolves scenes sid
      (hsub sid (List.mem_cons_self _ _))
    rw [List.filterMap_cons, hsc]
    simp only [List.map_cons]
    rw [hid, ih (fun s hs => hsub s (List.mem_cons_of_mem _ hs))]

theorem filter_map_ids (scenes : List SceneDefinition) (pred : String → Bool) :
    (scenes.filter (fun sc => pred sc.id)).map (·.id) =
      (scenes.map (·.id)).filter pred := by
  induction scenes with
  | nil => rfl
  | cons sc rest ih =>
    rw [List.map_cons, List.filter_cons, List.filter_cons]
    by_cases hp : pred sc.id
    · rw [if_pos (by simpa using hp), if_pos (by simpa using hp), List.map_cons, ih]
    · rw [if_neg (by simpa using hp), if_neg (by simpa using hp), ih]

theorem orch_fallback_perm (ids orch : List String) (hnd : ids.Nodup)
    (hod : orch.Nodup) (hsub : ∀ x ∈ orch, x ∈ ids) :
    (orch ++ ids.filter (fun i => !(orch.contains i))).Perm ids := by
  have hlhs : (orch ++ ids.filter (fun i => !(orch.contains i))).Nodup := by
    rw [List.nodup_append]
    refine ⟨hod, hnd.filter _, ?_⟩
    intro a ha hb
    rw [List.mem_filter] at hb
    have hb2 := hb.2
    simp only [Bool.not_eq_true'] at hb2
    simp only [List.contains_eq_any_beq, List.any_eq_false] at hb2
    exact (by simpa using hb2 a ha : a ≠ a) rfl
  refine (List.perm_ext_iff_of_nodup hlhs hnd).mpr ?_
  intro a
  simp only [List.mem_append, List.mem_filter]
  constructor
  · rintro (h | ⟨h, _⟩)
    · exact hsub a h
    · exact h
  · intro ha
    by_cases hao : a ∈ orch
    · exact Or.inl hao
    · right
      refine ⟨ha, ?_⟩
      cases hca : orch.contains a with
      | false => rfl
      | true => exact absurd (by simpa using hca) hao

theorem execute_plan_results_eq (bk : Backend) (plan : VideoGenerationPlan)
    (owner_id : Option String) (da dr dm : String) (av : Option String) :
    (execute_plan bk plan owner_id da dr dm av).1 =
      ((runGroups (fun scs => execute_parallel_scenes bk scs owner_id
          (preGenerateImages bk plan.scenes).1 da dr dm av)
          (sceneLookup plan.scenes) plan.orchestration.parallel_groups).1 ++
        (runGroups (fun scs => execute_sequential_scenes bk scs owner_id
          (preGenerateImages bk plan.scenes).1 da dr dm av)
          (sceneLookup plan.scenes) plan.orchestration.sequential_chains).1 ++
        (if (plan.scenes.filter (fun sc =>
            !((plan.orchestration.parallel_groups.flatten ++
               plan.orchestration.sequential_chains.flatten).contains sc.id))).isEmpty
         then []
         else (execute_sequential_scenes bk
            (plan.scenes.filter (fun sc =>
              !((plan.orchestration.parallel_groups.flatten ++
                 plan.orchestration.sequential_chains.flatten).contains sc.id)))
            owner_id (preGenerateImages bk plan.scenes).1 da dr dm av).1)).mergeSort
        (fun a b => sceneOrderKey plan.scenes a.scene_id ≤
          sceneOrderKey plan.scenes b.scene_id) := by
  unfold execute_plan
  dsimp only
  by_cases hemp : (plan.scenes.filter (fun sc =>
      !((plan.orchestration.parallel_groups.flatten ++
         plan.orchestration.sequential_chains.flatten).contains sc.id))).isEmpty
  · rw [if_pos hemp, if_pos hemp]
  · rw [if_neg hemp, if_neg hemp]

theorem orderFold_enumFrom (sid : String) :
    ∀ (scenes : List SceneDefinition),
      (scenes.map (·.id)).Nodup →
      ∀ (n : Nat) (a : Option Nat),
      (sid ∈ scenes.map (·.id) →
        (List.enumFrom n scenes).foldl
          (fun acc p => if p.2.id == sid then some p.1 else acc) a =
          some (n + (scenes.map (·.id)).indexOf sid)) ∧
      (sid ∉ scenes.map (·.id) →
        (List.enumFrom n scenes).foldl
          (fun acc p => if p.2.id == sid then some p.1 else acc) a = a) := by
  intro scenes
  induction scenes with
  | nil =>
    intro _ n a
    exact ⟨fun h => absurd h (by simp), fun _ => rfl⟩
  | cons sc rest ih =>
    intro hnd n a
    have hscr : sc.id ∉ rest.map (·.id) := by
      simp only [List.map_cons, List.nodup_cons] at hnd
      exact hnd.1
    have hndr : (rest.map (·.id)).Nodup := by
      simp only [List.map_cons, List.nodup_cons] at hnd
      exact hnd.2
    rw [List.enumFrom_cons]
    constructor
    · intro hmem
      rw [List.foldl_cons]
      dsimp only
      rw [List.map_cons] at hmem
      rcases List.mem_cons.mp hmem with heq | hmem2
      · rw [if_pos (by simp [heq.symm])]
        have hnr : sid ∉ rest.map (·.id) := heq ▸ hscr
        rw [(ih hndr (n + 1) (some n)).2 hnr]
        rw [List.map_cons, heq, List.indexOf_cons_self]
        rw [Nat.add_zero]
      · have hne : sc.id ≠ sid := by
          intro h
          exact hscr (h ▸ hmem2)
        rw [if_neg (by simp [hne])]
        rw [(ih hndr (n + 1) a).1 hmem2]
        rw [List.map_cons, List.indexOf_cons_ne _ (Ne.symm (fun h => hne h.symm))]
        congr 1
        omega
    · intro hmem
      rw [List.foldl_cons]
      dsimp only
      rw [List.map_cons] at hmem
      have hne : sc.id ≠ sid := by
        intro h
        exact hmem (h ▸ List.mem_cons_self _ _)
      have hnr : sid ∉ rest.map (·.id) := by
        intro h
        exact hmem (List.mem_cons_of_mem _ h)
      rw [if_neg (by simp [hne])]
      exact (ih hndr (n + 1) a).2 hnr

theorem sceneOrderKey_eq_indexOf (scenes : List SceneDefinition) (sid : String)
    (hnd : (scenes.map (·.id)).Nodup) (hmem : sid ∈ scenes.map (·.id)) :
    sceneOrderKey scenes sid = (scenes.map (·.id)).indexOf sid := by
  unfold sceneOrderKey
  rw [show scenes.enum = List.enumFrom 0 scenes from rfl]
  rw [(orderFold_enumFrom sid scenes hnd 0 none).1 hmem]
  simp

theorem parallel_stage_ids_perm (bk : Backend) (plan : VideoGenerationPlan)
    (owner_id : Option String) (da dr dm : String) (av : Option String)
    (hsched : ∀ l, (bk.sched l).Perm l)
    (hpar : ∀ g ∈ plan.orchestration.parallel_groups, ∀ sid ∈ g,
      sid ∈ plan.scenes.map (·.id)) :
    ((runGroups (fun scs => execute_parallel_scenes bk scs owner_id
        (preGenerateImages bk plan.scenes).1 da dr dm av)
        (sceneLookup plan.scenes) plan.orchestration.parallel_groups).1.map
      (·.scene_id)).Perm plan.orchestration.parallel_groups.flatten := by
  have h1 := runGroups_ids_perm
    (fun scs => execute_parallel_scenes bk scs owner_id
      (preGenerateImages bk plan.scenes).1 da dr dm av)
    (sceneLookup plan.scenes) plan.orchestration.parallel_groups
    (fun scs => execute_parallel_scenes_ids_perm bk hsched scs owner_id
      (preGenerateImages bk plan.scenes).1 da dr dm av)
  have h2 : plan.orchestration.parallel_groups.map
      (fun g => (g.filterMap (sceneLookup plan.scenes)).map (·.id)) =
      plan.orchestration.parallel_groups := by
    have h3 : ∀ g ∈ plan.orchestration.parallel_groups,
        (g.filterMap (sceneLookup plan.scenes)).map (·.id) = g :=
      fun g hg => group_resolved plan.scenes g (fun sid hs => hpar g hg sid hs)
    rw [List.map_congr_left h3]
    exact List.map_id _
  rw [h2] at h1
  exact h1

theorem sequential_stage_ids_perm (bk : Backend) (plan : VideoGenerationPlan)
    (owner_id : Option String) (da dr dm : String) (av : Option String)
    (hseq : ∀ ch ∈ plan.orchestration.sequential_chains, ∀ sid ∈ ch,
      sid ∈ plan.scenes.map (·.id)) :
    ((runGroups (fun scs => execute_sequential_scenes bk scs owner_id
        (preGenerateImages bk plan.scenes).1 da dr dm av)
        (sceneLookup plan.scenes) plan.orchestration.sequential_chains).1.map
      (·.scene_id)).Perm plan.orchestration.sequential_chains.flatten := by
  have h1 := runGroups_ids_perm
    (fun scs => execute_sequential_scenes bk scs owner_id
      (preGenerateImages bk plan.scenes).1 da dr dm av)
    (sceneLookup plan.scenes) plan.orchestration.sequential_chains
    (fun scs => by
      rw [execute_sequential_scenes_ids bk scs owner_id
        (preGenerateImages bk plan.scenes).1 da dr dm av])
  have h2 : plan.orchestration.sequential_chains.map
      (fun g => (g.filterMap (sceneLookup plan.scenes)).map (·.id)) =
      plan.orchestration.sequential_chains := by
    have h3 : ∀ g ∈ plan.orchestration.sequential_chains,
        (g.filterMap (sceneLookup plan.scenes)).map (·.id) = g :=
      fun g hg => group_resolved plan.scenes g (fun sid hs => hseq g hg sid hs)
    rw [List.map_congr_left h3]
    exact List.map_id _
  rw [h2] at h1
  exact h1

theorem fallback_stage_ids_eq (bk : Backend) (plan : VideoGenerationPlan)
    (owner_id : Option String) (da dr dm : String) (av : Option String) :
    ((if (plan.scenes.filter (fun sc =>
        !((plan.orchestration.parallel_groups.flatten ++
           plan.orchestration.sequential_chains.flatten).contains sc.id))).isEmpty
      then []
      else (execute_sequential_scenes bk
        (plan.scenes.filter (fun sc =>
          !((plan.orchestration.parallel_groups.flatten ++
             plan.orchestration.sequential_chains.flatten).contains sc.id)))
        owner_id (preGenerateImages bk plan.scenes).1 da dr dm av).1).map
      (·.scene_id)) =
      (plan.scenes.map (·.id)).filter (fun i =>
        !((plan.orchestration.parallel_groups.flatten ++
           plan.orchestration.sequential_chains.flatten).contains i)) := by
  by_cases hemp : (plan.scenes.filter (fun sc =>
      !((plan.orchestration.parallel_groups.flatten ++
         plan.orchestration.sequential_chains.flatten).contains sc.id))).isEmpty
  · rw [if_pos hemp]
    rw [← filter_map_ids plan.scenes (fun i =>
      !((plan.orchestration.parallel_groups.flatten ++
         plan.orchestration.sequential_chains.flatten).contains i))]
    rw [List.isEmpty_iff.mp hemp]
    rfl
  · rw [if_neg hemp]
    rw [execute_sequential_scenes_ids]
    rw [filter_map_ids plan.scenes (fun i =>
      !((plan.orchestration.parallel_groups.flatten ++
         plan.orchestration.sequential_chains.flatten).contains i))]

unseal List.merge List.mergeSort in
/-- C1 as frozen is falsified when a scene id appears in more than one
orchestration container: the validator accepts the plan whose single scene
sits in both a parallel group and a sequential chain, yet execution returns
two results for one scene. -/
theorem plan_duplicate_orchestration_counterexample :
    validate_plan exPlanDup = Except.ok () ∧
    exPlanDup.scenes.length = 1 ∧
    (execute_plan exBackend exPlanDup none "16:9" "720p" "m" none).1.length = 2 :=
  ⟨rfl, rfl, rfl⟩

/-- C1 (amended): for every plan accepted by the validator in which no scene
id occurs more than once across all parallel groups and sequential chains
combined, execute_plan returns exactly one result per scene id of the plan —
`len(P.scenes)` results, no duplicates, no omissions — for every completion
order of the parallel stages. -/
theorem plan_execution_one_result_per_scene (bk : Backend)
    (plan : VideoGenerationPlan) (owner_id : Option String) (da dr dm : String)
    (av : Option String)
    (hval : validate_plan plan = Except.ok ())
    (horch : (plan.orchestration.parallel_groups.flatten ++
      plan.orchestration.sequential_chains.flatten).Nodup)
    (hsched : ∀ l, (bk.sched l).Perm l) :
    ((execute_plan bk plan owner_id da dr dm av).1.map (·.scene_id)).Perm
      (plan.scenes.map (·.id)) ∧
    (execute_plan bk plan owner_id da dr dm av).1.length = plan.scenes.length := by
  obtain ⟨hne, hnd, hdeps, hext, hpar, hseq⟩ := (validate_plan_ok_iff plan).mp hval
  have hsub : ∀ x ∈ plan.orchestration.parallel_groups.flatten ++
      plan.orchestration.sequential_chains.flatten, x ∈ plan.scenes.map (·.id) := by
    intro x hx
    rcases List.mem_append.mp hx with hx | hx
    · rcases List.mem_flatten.mp hx with ⟨g, hg, hxg⟩
      exact hpar g hg x hxg
    · rcases List.mem_flatten.mp hx with ⟨g, hg, hxg⟩
      exact hseq g hg x hxg
  have hperm : ((execute_plan bk plan owner_id da dr dm av).1.map (·.scene_id)).Perm
      (plan.scenes.map (·.id)) := by
    rw [execute_plan_results_eq]
    refine ((List.mergeSort_perm _ _).map _).trans ?_
    rw [List.map_append, List.map_append,
      fallback_stage_ids_eq bk plan owner_id da dr dm av]
    refine (List.Perm.append (List.Perm.append
      (parallel_stage_ids_perm bk plan owner_id da dr dm av hsched hpar)
      (sequential_stage_ids_perm bk plan owner_id da dr dm av hseq))
      (List.Perm.refl _)).trans ?_
    exact orch_fallback_perm (plan.scenes.map (·.id))
      (plan.orchestration.parallel_groups.flatten ++
        plan.orchestration.sequential_chains.flatten) hnd horch hsub
  refine ⟨hperm, ?_⟩
  have hlen := hperm.length_eq
  rwa [List.length_map, List.length_map] at hlen

/-- Witness: the chained three-scene plan yields one result per scene. -/
theorem plan_execution_one_result_per_scene_witness :
    ((execute_plan exBackend exPlanChain none "16:9" "720p" "m" none).1.map
      (·.scene_id)).Perm (exPlanChain.scenes.map (·.id)) ∧
    (execute_plan exBackend exPlanChain none "16:9" "720p" "m" none).1.length =
      exPlanChain.scenes.length :=
  plan_execution_one_result_per_scene exBackend exPlanChain none "16:9" "720p" "m"
    none rfl (by decide) (fun l => List.Perm.refl l)

/-- C3: for every validated plan and every completion order of the parallel
stages, the returned results are ordered by the position of their scene id in
the plan's scene list. -/
theorem results_sorted_by_plan_order (bk : Backend) (plan : VideoGenerationPlan)
    (owner_id : Option String) (da dr dm : String) (av : Option String)
    (hval : validate_plan plan = Except.ok ())
    (hsched : ∀ l, (bk.sched l).Perm l) :
    ((execute_plan bk plan owner_id da dr dm av).1).Pairwise
      (fun r1 r2 => (plan.scenes.map (·.id)).indexOf r1.scene_id ≤
        (plan.scenes.map (·.id)).indexOf r2.scene_id) := by
  obtain ⟨hne, hnd, hdeps, hext, hpar, hseq⟩ := (validate_plan_ok_iff plan).mp hval
  have hsub : ∀ x ∈ plan.orchestration.parallel_groups.flatten ++
      plan.orchestration.sequential_chains.flatten, x ∈ plan.scenes.map (·.id) := by
    intro x hx
    rcases List.mem_append.mp hx with hx | hx
    · rcases List.mem_flatten.mp hx with ⟨g, hg, hxg⟩
      exact hpar g hg x hxg
    · rcases List.mem_flatten.mp hx with ⟨g, hg, hxg⟩
      exact hseq g hg x hxg
  rw [execute_plan_results_eq]
  have hmemX : ∀ r ∈ ((runGroups (fun scs => execute_parallel_scenes bk scs owner_id
        (preGenerateImages bk plan.scenes).1 da dr dm av)
        (sceneLookup plan.scenes) plan.orchestration.parallel_groups).1 ++
      (runGroups (fun scs => execute_sequential_scenes bk scs owner_id
        (preGenerateImages bk plan.scenes).1 da dr dm av)
        (sceneLookup plan.scenes) plan.orchestration.sequential_chains).1 ++
      (if (plan.scenes.filter (fun sc =>
          !((plan.orchestration.parallel_groups.flatten ++
             plan.orchestration.sequential_chains.flatten).contains sc.id))).isEmpty
       then []
       else (execute_sequential_scenes bk
          (plan.scenes.filter (fun sc =>
            !((plan.orchestration.parallel_groups.flatten ++
               plan.orchestration.sequential_chains.flatten).contains sc.id)))
          owner_id (preGenerateImages bk plan.scenes).1 da dr dm av).1)),
      r.scene_id ∈ plan.scenes.map (·.id) := by
    intro r hr
    rcases List.mem_append.mp hr with hr | hr
    · rcases List.mem_append.mp hr with hr | hr
      · have hm : r.scene_id ∈ (runGroups (fun scs => execute_parallel_scenes bk scs
            owner_id (preGenerateImages bk plan.scenes).1 da dr dm av)
            (sceneLookup plan.scenes) plan.orchestration.parallel_groups).1.map
            (·.scene_id) := List.mem_map.mpr ⟨r, hr, rfl⟩
        have hm2 := (parallel_stage_ids_perm bk plan owner_id da dr dm av hsched
          hpar).mem_iff.mp hm
        exact hsub _ (List.mem_append_left _ hm2)
      · have hm : r.scene_id ∈ (runGroups (fun scs => execute_sequential_scenes bk scs
            owner_id (preGenerateImages bk plan.scenes).1 da dr dm av)
            (sceneLookup plan.scenes) plan.orchestration.sequential_chains).1.map
            (·.scene_id) := List.mem_map.mpr ⟨r, hr, rfl⟩
        have hm2 := (sequential_stage_ids_perm bk plan owner_id da dr dm av
          hseq).mem_iff.mp hm
        exact hsub _ (List.mem_append_right _ hm2)
    · have hm : r.scene_id ∈ ((if (plan.scenes.filter (fun sc =>
          !((plan.orchestration.parallel_groups.flatten ++
             plan.orchestration.sequential_chains.flatten).contains sc.id))).isEmpty
          then []
          else (execute_sequential_scenes bk
            (plan.scenes.filter (fun sc =>
              !((plan.orchestration.parallel_groups.flatten ++
                 plan.orchestration.sequential_chains.flatten).contains sc.id)))
            owner_id (preGenerateImages bk plan.scenes).1 da dr dm av).1).map
          (·.scene_id)) := List.mem_map.mpr ⟨r, hr, rfl⟩
      rw [fallback_stage_ids_eq bk plan owner_id da dr dm av] at hm
      exact (List.mem_filter.mp hm).1
  refine List.Pairwise.imp_of_mem ?_
    (List.sorted_mergeSort (fun a b c h1 h2 => ?_) (fun a b => ?_) _)
  · intro a b ha hb hle
    have hamem : a.scene_id ∈ plan.scenes.map (·.id) :=
      hmemX a ((List.mergeSort_perm _ _).subset ha)
    have hbmem : b.scene_id ∈ plan.scenes.map (·.id) :=
      hmemX b ((List.mergeSort_perm _ _).subset hb)
    simp only [decide_eq_true_eq] at hle
    rw [← sceneOrderKey_eq_indexOf plan.scenes a.scene_id hnd hamem,
      ← sceneOrderKey_eq_indexOf plan.scenes b.scene_id hnd hbmem]
    exact hle
  · simp only [decide_eq_true_eq] at h1 h2 ⊢
    omega
  · simp only [Bool.or_eq_true, decide_eq_true_eq]
    omega

/-- Witness: the chained three-scene plan's results come back in plan order. -/
theorem results_sorted_by_plan_order_witness :
    ((execute_plan exBackend exPlanChain none "16:9" "720p" "m" none).1).Pairwise
      (fun r1 r2 => (exPlanChain.scenes.map (·.id)).indexOf r1.scene_id ≤
        (exPlanChain.scenes.map (·.id)).indexOf r2.scene_id) :=
  results_sorted_by_plan_order exBackend exPlanChain none "16:9" "720p" "m" none
    rfl (fun l => List.Perm.refl l)

end GenAI
